import Mathlib

set_option maxHeartbeats 2000000
set_option maxRecDepth 8000

/-!
Shallow embedding of the kaydle-primitives KDL parser (whitespace, strings,
numbers, values, properties, and the node traversal engine from the crate
kaydle-primitives), together with theorems settling the specification claims.

Input is modelled as a list of unicode scalar values (Lean Char, matching Rust
char). Parse results mirror the nom error discipline: a recoverable error
(nom Err::Error, which an alternative may backtrack over) is distinguished
from a non-backtracking failure (nom Err::Failure, produced by cut). Machine
integers are modelled as Nat / Int with explicit bounds checks mirroring the
checked arithmetic in the source; the f64 payload of a float is modelled as an
exact rational (every concrete float value appearing in the claims is exactly
representable in f64, so the rounding step of Rust float parsing is the
identity there).
-/

/-- Error payload of a parse result: the remaining input at the error
position, plus whether the error originated as a numeric BoundsError. -/
structure PError where
  rem : List Char
  bounds : Bool
deriving DecidableEq, Repr

/-- Result of a parser: success with unconsumed tail, recoverable error
(nom Err::Error) or non-backtracking failure (nom Err::Failure). -/
inductive PResult (α : Type) where
  | ok (tail : List Char) (val : α)
  | err (e : PError)
  | fail (e : PError)
deriving DecidableEq, Repr

/-- A parser from char lists, nom style. -/
def KP (α : Type) : Type := List Char → PResult α

/-- nom map. -/
def pMap {α β : Type} (p : KP α) (f : α → β) : KP β := fun input =>
  match p input with
  | .ok t v => .ok t (f v)
  | .err e => .err e
  | .fail e => .fail e

/-- Map to a constant, nom-supreme .value(). -/
def pConst {α β : Type} (p : KP α) (v : β) : KP β :=
  pMap p (fun _ => v)

/-- nom alt of two parsers: the second is tried only when the first returns a
recoverable error; a failure aborts the alternation. On two errors, nom's
default ParseError::or keeps the later error. -/
def pAlt {α : Type} (p q : KP α) : KP α := fun input =>
  match p input with
  | .ok t v => .ok t v
  | .fail e => .fail e
  | .err _ => q input

/-- Sequencing returning both results, nom-supreme .and(). -/
def pAnd {α β : Type} (p : KP α) (q : KP β) : KP (α × β) := fun input =>
  match p input with
  | .ok t v =>
    match q t with
    | .ok t2 w => .ok t2 (v, w)
    | .err e => .err e
    | .fail e => .fail e
  | .err e => .err e
  | .fail e => .fail e

/-- Run pre first, then p, keeping the value of p (.preceded_by). -/
def pPrecededBy {α β : Type} (p : KP α) (pre : KP β) : KP α := fun input =>
  match pre input with
  | .ok t _ => p t
  | .err e => .err e
  | .fail e => .fail e

/-- Run a then b, keeping the value of b (.precedes). -/
def pPrecedes {α β : Type} (a : KP α) (b : KP β) : KP β := fun input =>
  match a input with
  | .ok t _ => b t
  | .err e => .err e
  | .fail e => .fail e

/-- Run p then post, keeping the value of p (.terminated). -/
def pTerminated {α β : Type} (p : KP α) (post : KP β) : KP α := fun input =>
  match p input with
  | .ok t v =>
    match post t with
    | .ok t2 _ => .ok t2 v
    | .err e => .err e
    | .fail e => .fail e
  | .err e => .err e
  | .fail e => .fail e

/-- nom opt: recoverable errors become none without consuming input; a
failure still propagates. -/
def pOpt {α : Type} (p : KP α) : KP (Option α) := fun input =>
  match p input with
  | .ok t v => .ok t (some v)
  | .err _ => .ok input none
  | .fail e => .fail e

/-- nom-supreme cut: upgrade a recoverable error to a failure. -/
def pCut {α : Type} (p : KP α) : KP α := fun input =>
  match p input with
  | .ok t v => .ok t v
  | .err e => .fail e
  | .fail e => .fail e

/-- nom-supreme .not(): succeed (consuming nothing) iff the inner parser
errs. -/
def pNot {α : Type} (p : KP α) : KP Unit := fun input =>
  match p input with
  | .ok _ _ => .err ⟨input, false⟩
  | .err _ => .ok input ()
  | .fail e => .fail e

/-- nom recognize: return the span consumed by the inner parser. -/
def pRecognize {α : Type} (p : KP α) : KP (List Char) := fun input =>
  match p input with
  | .ok t _ => .ok t (input.take (input.length - t.length))
  | .err e => .err e
  | .fail e => .fail e

/-- nom map_res: a none result of the mapping function becomes a recoverable
error at the original position; boundsFlag records whether that external
error is a BoundsError. -/
def pMapRes {α β : Type} (p : KP α) (f : α → Option β) (boundsFlag : Bool) :
    KP β := fun input =>
  match p input with
  | .ok t v =>
    match f v with
    | some w => .ok t w
    | none => .err ⟨input, boundsFlag⟩
  | .err e => .err e
  | .fail e => .fail e

/-- nom-supreme map_res_cut: like pMapRes but the external error is a
non-backtracking failure. -/
def pMapResCut {α β : Type} (p : KP α) (f : α → Option β) (boundsFlag : Bool) :
    KP β := fun input =>
  match p input with
  | .ok t v =>
    match f v with
    | some w => .ok t w
    | none => .fail ⟨input, boundsFlag⟩
  | .err e => .err e
  | .fail e => .fail e

/-- nom char: match one exact character. -/
def pChar (c : Char) : KP Char := fun input =>
  match input with
  | x :: rest => if x = c then .ok rest c else .err ⟨input, false⟩
  | [] => .err ⟨[], false⟩

/-- nom-supreme complete tag. -/
def pTag (s : List Char) : KP (List Char) := fun input =>
  if s.isPrefixOf input then .ok (input.drop s.length) s else .err ⟨input, false⟩

/-- nom eof. -/
def pEof : KP Unit := fun input =>
  match input with
  | [] => .ok [] ()
  | _ => .err ⟨input, false⟩

/-- nom success: consume nothing, always succeed. -/
def pSuccess : KP Unit := fun input => .ok input ()

/-- Loop of at_least_one (crate util): keep applying the parser until it errs;
fuel bounds the iteration count (callers supply length + 1, which is always
sufficient because every looped parser in the crate consumes input). -/
def atLeastOneLoop {α : Type} (p : KP α) : Nat → List Char → PResult Unit
  | 0, input => .err ⟨input, false⟩
  | fuel + 1, input =>
    match p input with
    | .ok t _ => atLeastOneLoop p fuel t
    | .err _ => .ok input ()
    | .fail e => .fail e

/-- at_least_one from the crate util module: run a parser as many times as it
succeeds, at least once, discarding results. -/
def atLeastOne {α : Type} (p : KP α) : KP Unit := fun input =>
  match p input with
  | .ok t _ => atLeastOneLoop p (t.length + 1) t
  | .err e => .err e
  | .fail e => .fail e

/-- Loop of nom-supreme parse_separated_terminated: after each item, first try
the terminator, else the separator followed by another item. A fold result of
none models a fold error in the _res variant and yields a BoundsError-tagged
failure. -/
def sepTermLoop {α σ τ β : Type} (item : KP α) (sep : KP σ) (term : KP τ)
    (fold : β → α → Option β) : Nat → β → List Char → PResult β
  | 0, _, input => .err ⟨input, false⟩
  | fuel + 1, acc, input =>
    match term input with
    | .ok t _ => .ok t acc
    | .fail e => .fail e
    | .err _ =>
      match sep input with
      | .fail e => .fail e
      | .err e2 => .err e2
      | .ok st _ =>
        match item st with
        | .fail e => .fail e
        | .err e => .err e
        | .ok it v =>
          match fold acc v with
          | none => .fail ⟨it, true⟩
          | some acc2 => sepTermLoop item sep term fold fuel acc2 it

/-- nom-supreme parse_separated_terminated (and its _res variant, via a
partial fold): at least one item, items separated by sep, ended by term. -/
def sepTerm {α σ τ β : Type} (item : KP α) (sep : KP σ) (term : KP τ)
    (init : β) (fold : β → α → Option β) : KP β := fun input =>
  match item input with
  | .err e => .err e
  | .fail e => .fail e
  | .ok t v =>
    match fold init v with
    | none => .fail ⟨t, true⟩
    | some acc => sepTermLoop item sep term fold (t.length + 1) acc t

/-- Take the maximal nonempty run of characters satisfying f (nom digit1
family). -/
def takeWhile1 (f : Char → Bool) : KP (List Char) := fun input =>
  if (input.takeWhile f).isEmpty then .err ⟨input, false⟩
  else .ok (input.dropWhile f) (input.takeWhile f)

/-- nom take_while_m_n: between m and n characters satisfying f, maximal up
to n. -/
def pTakeWhileMN (m n : Nat) (f : Char → Bool) : KP (List Char) := fun input =>
  let run := (input.takeWhile f).take n
  if run.length < m then .err ⟨input, false⟩
  else .ok (input.drop run.length) run

/-! **Whitespace module (kaydle-primitives whitespace.rs)** -/

/-- The characters accepted as plain non-newline whitespace. The last entry
mirrors the source exactly: the char listed under the BOM comment in
parse_plain_whitespace is U+FFEF, not the byte order mark U+FEFF. -/
def wsChars : List Char :=
  ['\x09', ' ', Char.ofNat 0xA0, Char.ofNat 0x1680, Char.ofNat 0x2000,
   Char.ofNat 0x2001, Char.ofNat 0x2002, Char.ofNat 0x2003, Char.ofNat 0x2004,
   Char.ofNat 0x2005, Char.ofNat 0x2006, Char.ofNat 0x2007, Char.ofNat 0x2008,
   Char.ofNat 0x2009, Char.ofNat 0x200A, Char.ofNat 0x202F, Char.ofNat 0x205F,
   Char.ofNat 0x3000, Char.ofNat 0xFFEF]

/-- One plain-whitespace character (the alt of char parsers in
parse_plain_whitespace). -/
def wsChar : KP Char := fun input =>
  match input with
  | c :: rest => if c ∈ wsChars then .ok rest c else .err ⟨input, false⟩
  | [] => .err ⟨[], false⟩

/-- The scanning loop of finish_block_comment: find the first /* or */ tag,
recursing on nested openers; an unterminated comment errs at end of input. -/
def finishBlockComment : Nat → List Char → PResult Unit
  | 0, input => .err ⟨input, false⟩
  | fuel + 1, input =>
    match input with
    | '*' :: '/' :: rest => .ok rest ()
    | '/' :: '*' :: rest =>
      match finishBlockComment fuel rest with
      | .ok t _ => finishBlockComment fuel t
      | .err e => .err e
      | .fail e => .fail e
    | _ :: rest => finishBlockComment fuel rest
    | [] => .err ⟨[], false⟩

/-- parse_block_comment: a /* ... */ comment, possibly nested. -/
def parse_block_comment : KP Unit := fun input =>
  match pTag ['/', '*'] input with
  | .ok t _ => finishBlockComment (t.length + 1) t
  | .err e => .err e
  | .fail e => .fail e

/-- parse_plain_whitespace: one or more of whitespace chars and block
comments. -/
def parse_plain_whitespace : KP Unit :=
  atLeastOne (pAlt (pConst wsChar ()) parse_block_comment)

/-- The single newline characters recognized by parse_newline and
is_newline. -/
def newlineChars : List Char :=
  ['\x0D', '\x0A', Char.ofNat 0x85, '\x0C', Char.ofNat 0x2028, Char.ofNat 0x2029]

/-- parse_newline: CRLF as a unit, else any single newline character. -/
def parse_newline : KP Unit := fun input =>
  match input with
  | '\x0D' :: '\x0A' :: rest => .ok rest ()
  | c :: rest => if c ∈ newlineChars then .ok rest () else .err ⟨c :: rest, false⟩
  | [] => .err ⟨[], false⟩

/-- is_newline from the source. -/
def is_newline (c : Char) : Bool := c ∈ newlineChars

/-- The scan of parse_single_line_comment after the // tag: find the first
newline character and then parse (consume) the newline there; consume
everything when no newline occurs. -/
def slcScan : List Char → PResult Unit
  | [] => .ok [] ()
  | c :: rest => if is_newline c then parse_newline (c :: rest) else slcScan rest

/-- parse_single_line_comment: // up to a newline or end of input. -/
def parse_single_line_comment : KP Unit := fun input =>
  match pTag ['/', '/'] input with
  | .ok t _ => slcScan t
  | .err e => .err e
  | .fail e => .fail e

/-- parse_endline: newline or single line comment. -/
def parse_endline : KP Unit := pAlt parse_newline parse_single_line_comment

/-- parse_linespace: zero or more endlines / plain whitespace. -/
def parse_linespace : KP Unit :=
  pConst (pOpt (atLeastOne (pAlt parse_endline parse_plain_whitespace))) ()

/-- parse_escaped_endline: backslash, optional plain whitespace, endline. -/
def parse_escaped_endline : KP Unit :=
  pPrecedes (pPrecedes (pChar '\\') (pOpt parse_plain_whitespace)) parse_endline

/-- parse_node_space: one or more of plain whitespace / escaped endline. -/
def parse_node_space : KP Unit :=
  atLeastOne (pAlt parse_plain_whitespace parse_escaped_endline)

/-- parse_node_terminator: endline, eof or semicolon. -/
def parse_node_terminator : KP Unit :=
  pAlt (pAlt parse_endline pEof) (pConst (pChar ';') ())

/-! **String module (kaydle-primitives string.rs)** -/

/-- StringBuilder capability (the trait abstracting recognize-only vs
materializing string parsing). KDL strings are modelled by their character
content (List Char); the borrowed / owned distinction of KdlString carries no
information relevant to the claims settled here. -/
structure StrOps (σ : Type) where
  push_str : σ → List Char → σ
  push_char : σ → Char → σ
  from_str : List Char → σ

/-- StringBuilder::empty. -/
def StrOps.empty {σ : Type} (S : StrOps σ) : σ := S.from_str []

/-- The recognize-only StringBuilder instance for the unit type. -/
def strU : StrOps Unit := ⟨fun _ _ => (), fun _ _ => (), fun _ => ()⟩

/-- The materializing StringBuilder instance (content of a KdlString /
String). -/
def strK : StrOps (List Char) := ⟨fun s t => s ++ t, fun s c => s ++ [c], fun s => s⟩

/-- Hash counting at the start of a raw string: one or more hashes terminated
by a quote (parse_separated_terminated), or a bare quote meaning zero
hashes. -/
def countHashes : KP Nat :=
  pAlt (sepTerm (pChar '#') pSuccess (pChar '"') 0 (fun n _ => some (n + 1)))
    (pConst (pChar '"') 0)

/-- The scan loop of parse_raw_string: the content runs to the first quote
followed by n hashes; a quote followed by too little input is an unexpected
end of input (none); a quote followed by enough input that is not all hashes
is literal content. -/
def rawBody (n : Nat) : List Char → Option (List Char × List Char)
  | [] => none
  | c :: rest =>
    if c = '"' then
      if rest.length < n then none
      else if (rest.take n).all (fun x => x = '#') then some ([], rest.drop n)
      else
        match rawBody n rest with
        | some (p, t) => some ('"' :: p, t)
        | none => none
    else
      match rawBody n rest with
      | some (p, t) => some (c :: p, t)
      | none => none

/-- parse_raw_string: r, hashes, quote, content, quote, matching hashes.
An unterminated raw string is a failure positioned at end of input. -/
def parse_raw_string : KP (List Char) := fun input =>
  match pPrecededBy countHashes (pChar 'r') input with
  | .err e => .err e
  | .fail e => .fail e
  | .ok t n =>
    match rawBody n t with
    | some (payload, tail) => .ok tail payload
    | none => .fail ⟨[], false⟩

/-- Decidable search for a closing quote-then-n-hashes sequence, used to
state the unterminated-raw-string claim. -/
def hasClose (n : Nat) : List Char → Bool
  | [] => false
  | c :: rest =>
    (c = '"' && decide (n ≤ rest.length) && (rest.take n).all (fun x => x = '#'))
      || hasClose n rest

/-- The structural characters excluded from identifiers. -/
def structuralChars : List Char :=
  ['\\', '/', '(', ')', '\x7b', '\x7d', '<', '>', ';', '[', ']', '=', ',', '"']

/-- is_identifier from the source: not structural, above 0x20, a scalar
value. -/
def is_identifier (c : Char) : Bool :=
  structuralChars.all (fun b => c != b) && decide (0x20 < c.toNat)
    && decide (c.toNat ≤ 0x10FFFF)

/-- is_initial_identifier: also not an ascii digit. -/
def is_initial_identifier (c : Char) : Bool :=
  is_identifier c && !c.isDigit

/-- parse_bare_identifier, including the end-of-input behavior of the source:
the split point is computed as find(non-identifier).unwrap_or(0) plus the
first character's length, so when every remaining character is an identifier
character the parsed identifier is just the first character. -/
def parse_bare_identifier : KP (List Char) := fun input =>
  match input with
  | c :: rest =>
    if is_initial_identifier c then
      match rest.findIdx? (fun x => !is_identifier x) with
      | some j => .ok (rest.drop j) (c :: rest.take j)
      | none => .ok rest [c]
    else .err ⟨c :: rest, false⟩
  | [] => .err ⟨[], false⟩

/-- Numeric value of a hex digit. -/
def hexDigitVal (c : Char) : Nat :=
  if c.isDigit then c.toNat - '0'.toNat
  else if 'a' ≤ c && c ≤ 'f' then c.toNat - 'a'.toNat + 10
  else if 'A' ≤ c && c ≤ 'F' then c.toNat - 'A'.toNat + 10
  else 0

/-- Fold a run of hex digits into a Nat. -/
def hexVal (s : List Char) : Nat :=
  s.foldl (fun acc c => acc * 16 + hexDigitVal c) 0

/-- Is this char an ascii hex digit. -/
def isHexDigitC (c : Char) : Bool :=
  c.isDigit || ('a' ≤ c && c ≤ 'f') || ('A' ≤ c && c ≤ 'F')

/-- A code point is a valid unicode scalar value (char::try_from succeeds). -/
def scalarOfNat (v : Nat) : Option Char :=
  if v < 0xD800 || (0xDFFF < v && v ≤ 0x10FFFF) then some (Char.ofNat v) else none

/-- parse_unicode_escape: u, brace, 1 to 6 hex digits, closing brace; after
the opening tag everything is mandatory (cut). -/
def parse_unicode_escape : KP Char :=
  pPrecededBy
    (pCut (pTerminated
      (pMapRes (pMap (pTakeWhileMN 1 6 isHexDigitC) hexVal) scalarOfNat false)
      (pChar '\x7d')))
    (pTag ['u', '\x7b'])

/-- parse_escape: backslash followed by one escape code. -/
def parse_escape : KP Char :=
  pPrecededBy
    (pAlt (pConst (pChar 'n') '\x0A')
      (pAlt (pConst (pChar 'r') '\x0D')
        (pAlt (pConst (pChar 't') '\x09')
          (pAlt (pConst (pChar '\\') '\\')
            (pAlt (pConst (pChar '/') '/')
              (pAlt (pConst (pChar '"') '"')
                (pAlt (pConst (pChar 'b') '\x08')
                  (pAlt (pConst (pChar 'f') '\x0C')
                    parse_unicode_escape))))))))
    (pChar '\\')

/-- parse_unescaped_chunk: a nonempty run of characters up to the next quote
or backslash; an empty run is an error, and no quote or backslash at all is
an error at end of input. -/
def parse_unescaped_chunk : KP (List Char) := fun input =>
  match input.findIdx? (fun c => c = '"' || c = '\\') with
  | none => .err ⟨[], false⟩
  | some 0 => .err ⟨input, false⟩
  | some n => .ok (input.drop n) (input.take n)

/-- A piece of an escaped string: an unescaped chunk or one escaped char. -/
inductive StringChunk where
  | chunk (s : List Char)
  | chr (c : Char)

/-- parse_chunk: unescaped chunk or escape sequence. -/
def parse_chunk : KP StringChunk :=
  pAlt (pMap parse_unescaped_chunk .chunk) (pMap parse_escape .chr)

/-- parse_escaped_string: quote, chunks folded into the builder, closing
quote; after the opening quote everything is mandatory (cut). -/
def parse_escaped_string {σ : Type} (S : StrOps σ) : KP σ :=
  pPrecededBy
    (pCut (pAlt
      (sepTerm parse_chunk pSuccess (pChar '"') (StrOps.empty S)
        (fun acc ch =>
          some (match ch with
            | .chunk s => S.push_str acc s
            | .chr c => S.push_char acc c)))
      (pConst (pChar '"') (StrOps.empty S))))
    (pChar '"')

/-- parse_string: escaped string or raw string. -/
def parse_string {σ : Type} (S : StrOps σ) : KP σ :=
  pAlt (parse_escaped_string S) (pMap parse_raw_string S.from_str)

/-- parse_identifier: bare identifier or string. -/
def parse_identifier {σ : Type} (S : StrOps σ) : KP σ :=
  pAlt (pMap parse_bare_identifier S.from_str) (parse_string S)

/-! **Number module (kaydle-primitives number.rs)** -/

/-- The sign of a parsed number. -/
inductive Sign where
  | Positive
  | Negative
deriving DecidableEq, Repr

/-- parse_sign: a plus or minus character. -/
def parse_sign : KP Sign :=
  pAlt (pConst (pChar '+') Sign.Positive) (pConst (pChar '-') Sign.Negative)

/-- parse_optional_sign: positive when absent. -/
def parse_optional_sign : KP Sign :=
  pMap (pOpt parse_sign) (fun s => s.getD Sign.Positive)

/-- Radix prefix of a non-decimal integer. -/
inductive Base where
  | Binary
  | Octal
  | Hex
deriving DecidableEq, Repr

/-- parse_base: 0x, 0o or 0b. -/
def parse_base : KP Base :=
  pAlt (pConst (pTag ['0', 'x']) Base.Hex)
    (pAlt (pConst (pTag ['0', 'o']) Base.Octal)
      (pConst (pTag ['0', 'b']) Base.Binary))

/-- IntBuilder capability: start from a sign, then append digits; a none
result of add_digit models a BoundsError. -/
structure IntOps (α : Type) where
  start : Sign → α
  add_digit : α → Nat → Nat → Option α

/-- The recognize-only IntBuilder: no arithmetic, never a BoundsError. -/
def intU : IntOps Unit := ⟨fun _ => (), fun _ _ _ => some ()⟩

/-- KdlInt: a signed (negative) or unsigned 64-bit integer, modelled as
Int / Nat with explicit 64-bit bounds checks. -/
inductive KdlInt where
  | Signed (v : Int)
  | Unsigned (v : Nat)
deriving DecidableEq, Repr

/-- Smallest i64 value. -/
def i64Min : Int := -(2 ^ 63)

/-- Largest i64 value. -/
def i64Max : Int := 2 ^ 63 - 1

/-- Largest u64 value. -/
def u64Max : Nat := 2 ^ 64 - 1

/-- IntBuilder::add_digit for KdlInt: checked multiply then checked
subtract (signed accumulator) or checked add (unsigned accumulator);
overflow is a BoundsError (none). -/
def KdlInt.add_digit : KdlInt → Nat → Nat → Option KdlInt
  | .Signed v, digit, radix =>
    let m := v * (radix : Int)
    if m < i64Min ∨ i64Max < m then none
    else
      let s := m - (digit : Int)
      if s < i64Min ∨ i64Max < s then none
      else some (.Signed s)
  | .Unsigned v, digit, radix =>
    let m := v * radix
    if u64Max < m then none
    else if u64Max < m + digit then none
    else some (.Unsigned (m + digit))

/-- IntBuilder::start for KdlInt: unsigned zero for positive numbers, signed
zero for negative ones. -/
def KdlInt.start : Sign → KdlInt
  | .Positive => .Unsigned 0
  | .Negative => .Signed 0

/-- The materializing IntBuilder. -/
def intK : IntOps KdlInt := ⟨KdlInt.start, KdlInt.add_digit⟩

/-- Fold one recognized digit group into the accumulator (char::to_digit per
character, then IntBuilder::add_digit). -/
def foldDigits {α : Type} (ops : IntOps α) (radix : Nat) (acc : α)
    (digits : List Char) : Option α :=
  digits.foldlM (fun a c => ops.add_digit a (hexDigitVal c) radix) acc

/-- nom digit1. -/
def digit1 : KP (List Char) := takeWhile1 (fun c => c.isDigit)

/-- nom hex_digit1. -/
def hexDigit1 : KP (List Char) := takeWhile1 isHexDigitC

/-- nom oct_digit1. -/
def octDigit1 : KP (List Char) := takeWhile1 (fun c => '0' ≤ c && c ≤ '7')

/-- parse_integer_part: digit groups separated by underscore runs, terminated
by the absence of an underscore, folded into the builder. -/
def parse_integer_part {α β : Type} (number_p : KP β) (radix : Nat) (sign : Sign)
    (ops : IntOps α) : KP α :=
  sepTerm (pRecognize number_p) (atLeastOne (pChar '_')) (pNot (pChar '_'))
    (ops.start sign) (fun acc digits => foldDigits ops radix acc digits)

/-- parse_weird_number: optional sign, radix prefix, then the digits of that
radix; after the prefix everything is mandatory (cut). -/
def parse_weird_number {α : Type} (ops : IntOps α) : KP α := fun input =>
  match parse_optional_sign input with
  | .err e => .err e
  | .fail e => .fail e
  | .ok t1 sign =>
    match parse_base t1 with
    | .err e => .err e
    | .fail e => .fail e
    | .ok t2 base =>
      match base with
      | .Binary =>
        pCut (parse_integer_part (atLeastOne (pAlt (pChar '0') (pChar '1'))) 2 sign ops) t2
      | .Octal => pCut (parse_integer_part octDigit1 8 sign ops) t2
      | .Hex => pCut (parse_integer_part hexDigit1 16 sign ops) t2

/-- recognize_decimal_component: an underscore-grouped run of decimal digits,
recognized with the unit builder (no arithmetic). -/
def recognize_decimal_component : KP Unit :=
  parse_integer_part digit1 10 Sign.Positive intU

/-- NumberBuilder capability: the integer sub-builder, the from_str path for
decimal tokens (none models a BoundsError) and the from_int path for
radix-prefixed tokens. -/
structure NumOps (ν ι : Type) where
  intOps : IntOps ι
  fromStr : List Char → Option ν
  fromInt : ι → ν

/-- parse_decimal_number: sign, integer digits, optional fraction, optional
exponent, all recognized, then handed to the builder from_str. -/
def parse_decimal_number {ν ι : Type} (N : NumOps ν ι) : KP ν :=
  pMapResCut
    (pRecognize
      (pTerminated
        (pTerminated
          (pTerminated parse_optional_sign recognize_decimal_component)
          (pOpt (pPrecededBy (pCut recognize_decimal_component) (pChar '.'))))
        (pOpt (pPrecededBy
          (pCut (pTerminated parse_optional_sign recognize_decimal_component))
          (pAlt (pChar 'e') (pChar 'E'))))))
    N.fromStr true

/-- parse_number: radix-prefixed numbers are tried first (the minus-zero of a
token like -0xFF is a valid decimal prefix), then decimal numbers. -/
def parse_number {ν ι : Type} (N : NumOps ν ι) : KP ν :=
  pAlt (pMap (parse_weird_number N.intOps) N.fromInt) (parse_decimal_number N)

/-- KdlNumber: signed / unsigned 64-bit integer or 64-bit float; the float
payload is modelled as an exact rational. -/
inductive KdlNumber where
  | Signed (v : Int)
  | Unsigned (v : Nat)
  | Float (q : Rat)
deriving DecidableEq, Repr

/-- Remove digit-group underscores. -/
def stripUnderscores (s : List Char) : List Char := s.filter (fun c => c != '_')

/-- Does the token contain a fractional dot or exponent marker (the memchr3
of the source). -/
def hasFloatMark (s : List Char) : Bool :=
  s.any (fun c => c = '.' || c = 'e' || c = 'E')

/-- Value of a run of decimal digits. -/
def decDigitsVal (s : List Char) : Nat :=
  s.foldl (fun a c => a * 10 + (c.toNat - '0'.toNat)) 0

/-- Nonempty and all ascii digits. -/
def allDigits (s : List Char) : Bool := !s.isEmpty && s.all Char.isDigit

/-- Rust u64 from_str: optional plus sign, digits, bounds checked. -/
def u64FromStr (s : List Char) : Option Nat :=
  let body := match s with
    | '+' :: r => r
    | r => r
  if allDigits body then
    let v := decDigitsVal body
    if v ≤ u64Max then some v else none
  else none

/-- Rust i64 from_str: optional sign, digits, bounds checked. -/
def i64FromStr (s : List Char) : Option Int :=
  match s with
  | '-' :: r =>
    if allDigits r then
      let v : Int := -(decDigitsVal r : Int)
      if i64Min ≤ v then some v else none
    else none
  | '+' :: r =>
    if allDigits r then
      let v : Int := (decDigitsVal r : Int)
      if v ≤ i64Max then some v else none
    else none
  | r =>
    if allDigits r then
      let v : Int := (decDigitsVal r : Int)
      if v ≤ i64Max then some v else none
    else none

/-- Exact value of a decimal float token: sign, integer part, optional
fraction, optional exponent. Rust parses these through f64 from_str, which
rounds to the nearest double; on the exactly representable values appearing
in the claims the rounding is the identity, so the rational value is the
faithful model there. -/
def decToRat (s : List Char) : Rat :=
  let sgnAndRest : Int × List Char :=
    match s with
    | '-' :: r => (-1, r)
    | '+' :: r => (1, r)
    | r => (1, r)
  let sgn := sgnAndRest.1
  let s1 := sgnAndRest.2
  let ip := s1.takeWhile Char.isDigit
  let r1 := s1.dropWhile Char.isDigit
  let frAndRest : List Char × List Char :=
    match r1 with
    | '.' :: r => (r.takeWhile Char.isDigit, r.dropWhile Char.isDigit)
    | r => ([], r)
  let fr := frAndRest.1
  let r2 := frAndRest.2
  let ex : Int :=
    match r2 with
    | 'e' :: r | 'E' :: r =>
      match r with
      | '-' :: d => -(decDigitsVal (d.takeWhile Char.isDigit) : Int)
      | '+' :: d => (decDigitsVal (d.takeWhile Char.isDigit) : Int)
      | d => (decDigitsVal (d.takeWhile Char.isDigit) : Int)
    | _ => 0
  let mant : Nat := decDigitsVal ip * 10 ^ fr.length + decDigitsVal fr
  let m : Int := sgn * (mant : Int)
  let e : Int := ex - (fr.length : Int)
  if 0 ≤ e then mkRat (m * ((10 ^ e.toNat : Nat) : Int)) 1
  else mkRat m (10 ^ (-e).toNat)

/-- NumberBuilder::from_str for KdlNumber: strip underscores (through a
64-byte buffer whose overflow is a BoundsError), then classify: a float mark
means float, else a leading minus means signed, else unsigned. -/
def kdlNumFromStr (s : List Char) : Option KdlNumber :=
  let stripped := stripUnderscores s
  if s.any (fun c => c = '_') && decide (64 < stripped.length) then none
  else if hasFloatMark stripped then some (.Float (decToRat stripped))
  else if stripped.head? = some '-' then
    match i64FromStr stripped with
    | some v => some (.Signed v)
    | none => none
  else
    match u64FromStr stripped with
    | some v => some (.Unsigned v)
    | none => none

/-- The recognize-only NumberBuilder. -/
def numU : NumOps Unit Unit := ⟨intU, fun _ => some (), fun _ => ()⟩

/-- The materializing NumberBuilder for KdlNumber. -/
def numK : NumOps KdlNumber KdlInt :=
  ⟨intK, kdlNumFromStr, fun i =>
    match i with
    | .Signed v => .Signed v
    | .Unsigned v => .Unsigned v⟩

/-! **Crate root parsers (lib.rs)** -/

/-- parse_null. -/
def parse_null : KP Unit := pConst (pTag ['n', 'u', 'l', 'l']) ()

/-- parse_bool. -/
def parse_bool : KP Bool :=
  pAlt (pConst (pTag ['t', 'r', 'u', 'e']) true)
    (pConst (pTag ['f', 'a', 'l', 's', 'e']) false)

/-! **Annotation module (kaydle-primitives annotation.rs); names are
shortened to annot. ** -/

/-- AnnotationBuilder capability. -/
structure AnnotOps (A σ : Type) where
  absent : A
  annotated : σ → A

/-- Recognize-only AnnotationBuilder. -/
def annU : AnnotOps Unit Unit := ⟨(), fun _ => ()⟩

/-- Materializing AnnotationBuilder (Option of a string). -/
def annK : AnnotOps (Option (List Char)) (List Char) := ⟨none, fun s => some s⟩

/-- parse_annotation: parenthesized identifier; once the opening paren is
seen the rest is mandatory (cut). -/
def parse_annot {σ : Type} (S : StrOps σ) : KP σ :=
  pPrecededBy (pCut (pTerminated (parse_identifier S) (pChar ')'))) (pChar '(')

/-- parse_maybe_annotation: an annotation if present, else absent; a
malformed annotation after an opening paren stays a failure. -/
def parse_maybe_annot {A σ : Type} (AO : AnnotOps A σ) (S : StrOps σ) : KP A :=
  pAlt (pMap (parse_annot S) AO.annotated) (pMap pSuccess (fun _ => AO.absent))

/-- An annotated item. -/
structure GenericAnnotated (A T : Type) where
  annot : A
  item : T
deriving DecidableEq, Repr

/-- with_annotation: optional annotation, then the item. -/
def with_annot {A σ T : Type} (AO : AnnotOps A σ) (S : StrOps σ) (p : KP T) :
    KP (GenericAnnotated A T) :=
  pMap (pAnd (parse_maybe_annot AO S) p) (fun x => ⟨x.1, x.2⟩)

/-! **Value module (kaydle-primitives value.rs)** -/

/-- A KDL value: null, bool, number or string, generic over the number and
string representation. -/
inductive GenericValue (N S : Type) where
  | Null
  | Bool (b : Bool)
  | Number (n : N)
  | String (s : S)
deriving DecidableEq, Repr

/-- ValueBuilder capability. -/
structure ValOps (V N S : Type) where
  from_null : V
  from_bool : Bool → V
  from_number : N → V
  from_string : S → V

/-- Recognize-only ValueBuilder. -/
def valU : ValOps Unit Unit Unit := ⟨(), fun _ => (), fun _ => (), fun _ => ()⟩

/-- The materialized KDL value type. -/
abbrev KdlValueM : Type := GenericValue KdlNumber (List Char)

/-- Materializing ValueBuilder. -/
def valK : ValOps KdlValueM KdlNumber (List Char) :=
  ⟨.Null, .Bool, .Number, .String⟩

/-- parse_bare_value: null, bool, string, number, in that order. -/
def parse_bare_value {V N S ι : Type} (VO : ValOps V N S) (NO : NumOps N ι)
    (SO : StrOps S) : KP V :=
  pAlt (pMap parse_null (fun _ => VO.from_null))
    (pAlt (pMap parse_bool VO.from_bool)
      (pAlt (pMap (parse_string SO) VO.from_string)
        (pMap (parse_number NO) VO.from_number)))

/-- parse_value: a bare value with an optional preceding annotation. -/
def parse_value {V N S ι A σ : Type} (VO : ValOps V N S) (NO : NumOps N ι)
    (SO : StrOps S) (AO : AnnotOps A σ) (SA : StrOps σ) :
    KP (GenericAnnotated A V) :=
  with_annot AO SA (parse_bare_value VO NO SO)

/-! **Property module (kaydle-primitives property.rs)** -/

/-- A property: identifier key and annotated value. -/
structure GenericProperty (K A V : Type) where
  key : K
  value : GenericAnnotated A V
deriving DecidableEq, Repr

/-- parse_property: identifier, equals sign, annotated value. There is no cut
after the equals sign in the source: a recoverable error from the value
parser leaves the whole property parse recoverable. -/
def parse_property {K A V N S ι σ : Type} (KO : StrOps K) (AO : AnnotOps A σ)
    (SA : StrOps σ) (VO : ValOps V N S) (NO : NumOps N ι) (SO : StrOps S) :
    KP (GenericProperty K A V) :=
  pMap (pAnd (pTerminated (parse_identifier KO) (pChar '=')) (parse_value VO NO SO AO SA))
    (fun x => ⟨x.1, x.2⟩)

/-! **Node module (kaydle-primitives node.rs)** -/

/-- parse_node_start: linespace, then an annotated identifier (a node name)
or the end of the node list. -/
def parse_node_start {A σ τ : Type} (endOfNodes : KP Unit) (AO : AnnotOps A σ)
    (SA : StrOps σ) (SN : StrOps τ) : KP (Option (GenericAnnotated A τ)) :=
  pPrecededBy
    (pAlt (pMap (with_annot AO SA (parse_identifier SN)) some)
      (pMap endOfNodes (fun _ => none)))
    parse_linespace

/-- One event inside a node body. -/
inductive InternalNodeEvent (VA V K PA P : Type) where
  | Argument (a : GenericAnnotated VA V)
  | Property (p : GenericProperty K PA P)
  | Children
  | End
deriving DecidableEq, Repr

/-- parse_node_event: either node space followed by a property or an
argument (the property grammar is tried first), or optional node space
followed by a children opener or a node terminator. -/
def parse_node_event {VA σa V N S ι K PA σp P N2 S2 ι2 : Type}
    (VAO : AnnotOps VA σa) (SAa : StrOps σa) (VO : ValOps V N S)
    (NO : NumOps N ι) (SO : StrOps S) (KO : StrOps K) (PAO : AnnotOps PA σp)
    (SAp : StrOps σp) (PO : ValOps P N2 S2) (NO2 : NumOps N2 ι2)
    (SO2 : StrOps S2) : KP (InternalNodeEvent VA V K PA P) :=
  pAlt
    (pPrecededBy
      (pAlt (pMap (parse_property KO PAO SAp PO NO2 SO2) .Property)
        (pMap (parse_value VO NO SO VAO SAa) .Argument))
      parse_node_space)
    (pPrecededBy
      (pAlt (pMap (pChar '\x7b') (fun _ => .Children))
        (pMap parse_node_terminator (fun _ => .End)))
      (pOpt parse_node_space))

/-- The materializing node event parser. -/
def kdlEvent :
    KP (InternalNodeEvent (Option (List Char)) KdlValueM (List Char)
      (Option (List Char)) KdlValueM) :=
  parse_node_event annK strK valK numK strK strK annK strK valK numK strK

/-- The recognize-only node event parser (as used by every drain). -/
def recogEvent : KP (InternalNodeEvent Unit Unit Unit Unit Unit) :=
  parse_node_event annU strU valU numU strU strU annU strU valU numU strU

/-- The Document processor: remaining input plus the flag recording that a
yielded node processor has not yet completed. -/
structure Document where
  state : List Char
  child_in_progress : Bool
deriving DecidableEq, Repr

/-- Document::new. -/
def Document.new (input : List Char) : Document := ⟨input, false⟩

/-- Outcome of next_node on a node list: a fatal panic (the previous node is
still open), a node, the end of the list, or a parse error / failure. -/
inductive DocStep where
  | fatal
  | node (n : GenericAnnotated (Option (List Char)) (List Char))
  | finished
  | perr (e : PError)
  | pfail (e : PError)
deriving DecidableEq, Repr

/-- Node start parser for a Document (end of list is eof), materializing. -/
def docStart : KP (Option (GenericAnnotated (Option (List Char)) (List Char))) :=
  parse_node_start pEof annK strK strK

/-- Document::next_node. Panics (fatal) when the previously yielded node was
not driven to completion; otherwise parses the next node start, updating the
shared state only on success. -/
def Document.next_node (d : Document) : DocStep × Document :=
  if d.child_in_progress then (.fatal, d)
  else
    match docStart d.state with
    | .ok t none => (.finished, ⟨t, false⟩)
    | .ok t (some n) => (.node n, ⟨t, true⟩)
    | .err e => (.perr e, d)
    | .fail e => (.pfail e, d)

/-- The Children processor: remaining input, the parent in_progress flag it
shares with the node that yielded it, and its own child flag. -/
structure ChildrenState where
  state : List Char
  in_progress : Bool
  child_in_progress : Bool
deriving DecidableEq, Repr

/-- Node start parser for a Children list (end of list is a closing brace),
materializing. -/
def childrenStart : KP (Option (GenericAnnotated (Option (List Char)) (List Char))) :=
  parse_node_start (pConst (pChar '\x7d') ()) annK strK strK

/-- Children::next_node: fused None once the list completed, a panic (fatal)
when the previously yielded child node is still open, else parse. -/
def Children.next_node (c : ChildrenState) : DocStep × ChildrenState :=
  if !c.in_progress then (.finished, c)
  else if c.child_in_progress then (.fatal, c)
  else
    match childrenStart c.state with
    | .ok t none => (.finished, ⟨t, false, false⟩)
    | .ok t (some n) => (.node n, ⟨t, true, true⟩)
    | .err e => (.perr e, c)
    | .fail e => (.pfail e, c)

/-- The NodeContent processor: remaining input plus the parent-owned
in_progress flag. -/
structure ContentState where
  state : List Char
  in_progress : Bool
deriving DecidableEq, Repr

/-- Outcome of next_event on a node content processor. -/
inductive EventStep where
  | argument (a : GenericAnnotated (Option (List Char)) KdlValueM)
  | property (p : GenericProperty (List Char) (Option (List Char)) KdlValueM)
  | childrenEv
  | fin
  | perr (e : PError)
  | pfail (e : PError)
deriving DecidableEq, Repr

/-- NodeContent::next_event: parse one node event; on End the parent flag is
reset; on error the shared state is untouched. -/
def NodeContent.next_event (cs : ContentState) : EventStep × ContentState :=
  match kdlEvent cs.state with
  | .ok t ev =>
    match ev with
    | .Argument a => (.argument a, ⟨t, cs.in_progress⟩)
    | .Property p => (.property p, ⟨t, cs.in_progress⟩)
    | .Children => (.childrenEv, ⟨t, cs.in_progress⟩)
    | .End => (.fin, ⟨t, false⟩)
  | .err e => (.perr e, cs)
  | .fail e => (.pfail e, cs)

/-- Drain result: was the drained thing already empty. -/
inductive DrainOutcome where
  | Empty
  | NotEmpty
deriving DecidableEq, Repr

/-- Node start parser for a Document in recognize-only mode. -/
def drainDocStartP : KP (Option (GenericAnnotated Unit Unit)) :=
  parse_node_start pEof annU strU strU

/-- Node start parser for a Children list in recognize-only mode. -/
def drainChildStartP : KP (Option (GenericAnnotated Unit Unit)) :=
  parse_node_start (pConst (pChar '\x7d') ()) annU strU strU

mutual

/-- NodeContent::drain, first event: End means the node was empty; a first
Children event returns the children outcome directly. -/
def drainContent : Nat → List Char → PResult DrainOutcome
  | 0, rem => .err ⟨rem, false⟩
  | fuel + 1, rem =>
    match recogEvent rem with
    | .err e => .err e
    | .fail e => .fail e
    | .ok t ev =>
      match ev with
      | .End => .ok t .Empty
      | .Argument _ => drainContentLoop fuel t
      | .Property _ => drainContentLoop fuel t
      | .Children => drainChildren fuel t

/-- NodeContent::drain, subsequent events: the node is known non-empty. -/
def drainContentLoop : Nat → List Char → PResult DrainOutcome
  | 0, rem => .err ⟨rem, false⟩
  | fuel + 1, rem =>
    match recogEvent rem with
    | .err e => .err e
    | .fail e => .fail e
    | .ok t ev =>
      match ev with
      | .End => .ok t .NotEmpty
      | .Argument _ => drainContentLoop fuel t
      | .Property _ => drainContentLoop fuel t
      | .Children =>
        match drainChildren fuel t with
        | .ok t2 _ => .ok t2 .NotEmpty
        | .err e => .err e
        | .fail e => .fail e

/-- NodeList::drain for a Children list, first node. -/
def drainChildren : Nat → List Char → PResult DrainOutcome
  | 0, rem => .err ⟨rem, false⟩
  | fuel + 1, rem =>
    match drainChildStartP rem with
    | .err e => .err e
    | .fail e => .fail e
    | .ok t none => .ok t .Empty
    | .ok t (some _) =>
      match drainContent fuel t with
      | .ok t2 _ => drainChildrenLoop fuel t2
      | .err e => .err e
      | .fail e => .fail e

/-- NodeList::drain for a Children list, subsequent nodes. -/
def drainChildrenLoop : Nat → List Char → PResult DrainOutcome
  | 0, rem => .err ⟨rem, false⟩
  | fuel + 1, rem =>
    match drainChildStartP rem with
    | .err e => .err e
    | .fail e => .fail e
    | .ok t none => .ok t .NotEmpty
    | .ok t (some _) =>
      match drainContent fuel t with
      | .ok t2 _ => drainChildrenLoop fuel t2
      | .err e => .err e
      | .fail e => .fail e

/-- NodeList::drain for a Document, first node. -/
def drainDoc : Nat → List Char → PResult DrainOutcome
  | 0, rem => .err ⟨rem, false⟩
  | fuel + 1, rem =>
    match drainDocStartP rem with
    | .err e => .err e
    | .fail e => .fail e
    | .ok t none => .ok t .Empty
    | .ok t (some _) =>
      match drainContent fuel t with
      | .ok t2 _ => drainDocLoop fuel t2
      | .err e => .err e
      | .fail e => .fail e

/-- NodeList::drain for a Document, subsequent nodes. -/
def drainDocLoop : Nat → List Char → PResult DrainOutcome
  | 0, rem => .err ⟨rem, false⟩
  | fuel + 1, rem =>
    match drainDocStartP rem with
    | .err e => .err e
    | .fail e => .fail e
    | .ok t none => .ok t .NotEmpty
    | .ok t (some _) =>
      match drainContent fuel t with
      | .ok t2 _ => drainDocLoop fuel t2
      | .err e => .err e
      | .fail e => .fail e

end

/-- Drain an entire document: the fuel of one unit per parsed event is always
covered by the input length plus one, since every non-terminal event consumes
input. -/
def drainDocument (input : List Char) : PResult DrainOutcome :=
  drainDoc (input.length + 1) input

/-! **Helper predicates used by the claim statements** -/

/-- Is this integer the signed variant. -/
def KdlInt.isSigned : KdlInt → Bool
  | .Signed _ => true
  | .Unsigned _ => false

/-- Is this number the float variant. -/
def KdlNumber.isFloat : KdlNumber → Bool
  | .Float _ => true
  | _ => false

/-- Is this number the signed integer variant. -/
def KdlNumber.isSignedNum : KdlNumber → Bool
  | .Signed _ => true
  | _ => false

/-- A parse result that is not a BoundsError: success, or an error whose
bounds flag is clear. -/
def PResult.noBounds {α : Type} : PResult α → Bool
  | .ok _ _ => true
  | .err e => !e.bounds
  | .fail e => !e.bounds

/-! **Claim theorems** -/

/-- Claim C1: on every node-list cursor (Document or Children) whose
previously yielded node's content cursor has not been driven to completion
(the in-progress flag for that child is still set), next_node panics
deterministically (the fatal outcome, with the state untouched); it never
returns a recoverable error or a desynchronized parse. -/
theorem c1_next_node_panics_on_open_child :
    (∀ d : Document, d.child_in_progress = true →
      Document.next_node d = (DocStep.fatal, d)) ∧
    (∀ c : ChildrenState, c.in_progress = true → c.child_in_progress = true →
      Children.next_node c = (DocStep.fatal, c)) := by
  constructor
  · intro d h
    simp [Document.next_node, h]
  · intro c h1 h2
    simp [Children.next_node, h1, h2]

/-- Witness for C1 at a concrete open state. -/
theorem c1_next_node_panics_on_open_child_witness :
    Document.next_node ⟨ "x".toList, true⟩ = (DocStep.fatal, ⟨ "x".toList, true⟩) ∧
    Children.next_node ⟨ "x".toList, true, true⟩ = (DocStep.fatal, ⟨ "x".toList, true, true⟩) :=
  ⟨c1_next_node_panics_on_open_child.1 ⟨ "x".toList, true⟩ rfl,
   c1_next_node_panics_on_open_child.2 ⟨ "x".toList, true, true⟩ rfl rfl⟩

/-- Claim C9: every cursor-advancing operation is atomic with respect to the
shared state: when the underlying parse errs or fails, the returned state
(remaining input and in-progress flags) is exactly the input state. -/
theorem c9_cursor_ops_atomic_on_error :
    (∀ (d : Document) (e : PError),
      (Document.next_node d).1 = DocStep.perr e ∨
        (Document.next_node d).1 = DocStep.pfail e →
      (Document.next_node d).2 = d) ∧
    (∀ (c : ChildrenState) (e : PError),
      (Children.next_node c).1 = DocStep.perr e ∨
        (Children.next_node c).1 = DocStep.pfail e →
      (Children.next_node c).2 = c) ∧
    (∀ (cs : ContentState) (e : PError),
      (NodeContent.next_event cs).1 = EventStep.perr e ∨
        (NodeContent.next_event cs).1 = EventStep.pfail e →
      (NodeContent.next_event cs).2 = cs) := by
  refine ⟨?_, ?_, ?_⟩
  · intro d e h
    by_cases hc : d.child_in_progress
    · simp [Document.next_node, hc] at h
    · cases hp : docStart d.state with
      | ok t v => cases v <;> simp [Document.next_node, hc, hp] at h
      | err e2 => simp [Document.next_node, hc, hp]
      | fail e2 => simp [Document.next_node, hc, hp]
  · intro c e h
    by_cases hi : c.in_progress
    · by_cases hc : c.child_in_progress
      · simp [Children.next_node, hi, hc] at h
      · cases hp : childrenStart c.state with
        | ok t v => cases v <;> simp [Children.next_node, hi, hc, hp] at h
        | err e2 => simp [Children.next_node, hi, hc, hp]
        | fail e2 => simp [Children.next_node, hi, hc, hp]
    · simp [Children.next_node, hi] at h
  · intro cs e h
    cases hp : kdlEvent cs.state with
    | ok t v => cases v <;> simp [NodeContent.next_event, hp] at h
    | err e2 => simp [NodeContent.next_event, hp]
    | fail e2 => simp [NodeContent.next_event, hp]

/-- Witness for C9: a document whose next parse errs keeps its state. -/
theorem c9_cursor_ops_atomic_on_error_witness :
    (Document.next_node (Document.new ( "=".toList))).1 =
      DocStep.perr ⟨ "=".toList, false⟩ ∧
    (Document.next_node (Document.new ( "=".toList))).2 = Document.new ( "=".toList) :=
  ⟨by decide,
   c9_cursor_ops_atomic_on_error.1 (Document.new ( "=".toList)) ⟨ "=".toList, false⟩
     (Or.inl (by decide))⟩

/-- Claim C8 (code bug evidence): parse_plain_whitespace rejects an input
beginning with the byte order mark U+FEFF, while accepting the typo'd
character U+FFEF that the source lists under its BOM comment, and accepting
an ordinary space. -/
theorem c8_bom_rejected_ffef_accepted :
    parse_plain_whitespace [Char.ofNat 0xFEFF] = .err ⟨[Char.ofNat 0xFEFF], false⟩ ∧
    parse_plain_whitespace [Char.ofNat 0xFFEF] = .ok [] () ∧
    parse_plain_whitespace ( " x".toList) = .ok ( "x".toList) () := by
  refine ⟨by decide, by decide, by decide⟩

/-- Claim C5 (code bug evidence): the valid document ab (a bare node name
running to end of input, terminated by eof) is truncated by
parse_bare_identifier to its first character, so draining it returns a
syntax error; the same document with a newline terminator drains cleanly as
NotEmpty, and the empty document drains as Empty. -/
theorem c5_valid_document_drain_errors :
    parse_bare_identifier ( "ab".toList) = .ok ( "b".toList) ( "a".toList) ∧
    drainDocument ( "ab".toList) = .err ⟨ "b".toList, false⟩ ∧
    drainDocument ( "ab\n".toList) = .ok [] .NotEmpty ∧
    drainDocument [] = .ok [] .Empty := by
  refine ⟨by decide, by decide, by decide, by decide⟩

/-- Scanning a single line comment skips every non-newline character. -/
theorem slcScan_skips (pre rest : List Char) (h : ∀ c ∈ pre, is_newline c = false) :
    slcScan (pre ++ rest) = slcScan rest := by
  induction pre with
  | nil => rfl
  | cons c cs ih =>
    have hc : is_newline c = false := h c (List.mem_cons_self c cs)
    have ih2 := ih (fun x hx => h x (List.mem_cons_of_mem c hx))
    simp [slcScan, hc, ih2]

/-- A single line comment starts with the // tag. -/
theorem slc_tag (xs : List Char) :
    parse_single_line_comment ('/' :: '/' :: xs) = slcScan xs := by
  simp [parse_single_line_comment, pTag, List.isPrefixOf]

/-- Claim C7 (counterexample): parse_single_line_comment on //abc then
newline then def consumes the newline, leaving def, not newline-def as the
claim requires. -/
theorem c7_counterexample :
    parse_single_line_comment ( "//abc\ndef".toList) = .ok ( "def".toList) () ∧
    parse_single_line_comment ( "//abc\ndef".toList) ≠ .ok ( "\ndef".toList) () := by
  refine ⟨by decide, by decide⟩

/-- Claim C7 (amended): for every input starting with //,
parse_single_line_comment succeeds and consumes the comment up to and
including the first newline (consuming a CRLF pair as a unit), or up to end
of input when no newline follows. -/
theorem c7_amended_newline_consumed :
    (∀ pre, (∀ c ∈ pre, is_newline c = false) →
      parse_single_line_comment ('/' :: '/' :: pre) = .ok [] ()) ∧
    (∀ pre c rest, (∀ x ∈ pre, is_newline x = false) → is_newline c = true →
      parse_single_line_comment ('/' :: '/' :: (pre ++ c :: rest)) =
        parse_newline (c :: rest)) ∧
    (∀ rest, parse_newline ('\x0A' :: rest) = .ok rest ()) ∧
    (∀ rest, parse_newline ('\x0D' :: '\x0A' :: rest) = .ok rest ()) := by
  refine ⟨?_, ?_, ?_, ?_⟩
  · intro pre h
    have h2 : slcScan pre = .ok [] () := by
      have h3 := slcScan_skips pre [] h
      simpa [slcScan] using h3
    rw [slc_tag, h2]
  · intro pre c rest h hc
    rw [slc_tag, slcScan_skips pre (c :: rest) h]
    simp [slcScan, hc]
  · intro rest
    rfl
  · intro rest
    rfl

/-- Witness for the amended C7 at a concrete comment. -/
theorem c7_amended_newline_consumed_witness :
    parse_single_line_comment ( "//abc\ndef".toList) = parse_newline ( "\ndef".toList) ∧
    parse_newline ( "\ndef".toList) = .ok ( "def".toList) () :=
  ⟨c7_amended_newline_consumed.2.1 ( "abc".toList) '\x0A' ( "def".toList)
      (by decide) (by decide),
   c7_amended_newline_consumed.2.2.1 ( "def".toList)⟩

/-- Claim C2: at every node-content position the property grammar is tried
before the bare-value grammar (whenever node space and then a property
parse succeed, the node event is that Property), and on the concrete body
prop=10 before a newline terminator the content cursor yields exactly one
Property event with key prop and unsigned value 10, then End on the tail. -/
theorem c2_property_tried_before_argument :
    (∀ input rest tail pr,
      parse_node_space input = .ok rest () →
      parse_property strK annK strK valK numK strK rest = .ok tail pr →
      kdlEvent input = .ok tail (.Property pr)) ∧
    NodeContent.next_event ⟨ " prop=10\n".toList, true⟩ =
      (.property ⟨ "prop".toList, ⟨none, .Number (.Unsigned 10)⟩⟩,
        ⟨ "\n".toList, true⟩) ∧
    NodeContent.next_event ⟨ "\n".toList, true⟩ = (.fin, ⟨[], false⟩) := by
  refine ⟨?_, by decide, by decide⟩
  intro input rest tail pr h1 h2
  simp only [kdlEvent, parse_node_event, pAlt, pPrecededBy, pMap, h1, h2]

/-- Witness for C2's general part at the concrete body. -/
theorem c2_property_tried_before_argument_witness :
    kdlEvent ( " prop=10\n".toList) =
      .ok ( "\n".toList)
        (.Property ⟨ "prop".toList, ⟨none, .Number (.Unsigned 10)⟩⟩) :=
  c2_property_tried_before_argument.1 ( " prop=10\n".toList) ( "prop=10\n".toList)
    ( "\n".toList) ⟨ "prop".toList, ⟨none, .Number (.Unsigned 10)⟩⟩
    (by decide) (by decide)

/-- Claim C3 (counterexample): with the node body quote-abc-quote = bang, the
property key and the equals sign parse, the value is invalid, yet
parse_property returns a recoverable error (not a non-backtracking failure),
and the node event parser then retries and reinterprets the identifier as a
standalone string argument. -/
theorem c3_counterexample :
    parse_property strK annK strK valK numK strK ( "\"abc\"=!\n".toList) =
      .err ⟨ "!\n".toList, false⟩ ∧
    kdlEvent ( " \"abc\"=!\n".toList) =
      .ok ( "=!\n".toList) (.Argument ⟨none, .String ( "abc".toList)⟩) := by
  refine ⟨by decide, by decide⟩

/-- Claim C3 (amended): when the key and the equals sign have been consumed
and the value parser then errs recoverably, parse_property propagates that
same recoverable error (there is no cut after the equals sign), and the
node-event alternation then falls back to parsing the position as a bare
value argument when one matches. -/
theorem c3_amended_backtracks_after_equals :
    (∀ input r1 r2 k e,
      parse_identifier strK input = .ok r1 k →
      pChar '=' r1 = .ok r2 '=' →
      parse_value valK numK strK annK strK r2 = .err e →
      parse_property strK annK strK valK numK strK input = .err e) ∧
    (∀ input rest tail v e,
      parse_node_space input = .ok rest () →
      parse_property strK annK strK valK numK strK rest = .err e →
      parse_value valK numK strK annK strK rest = .ok tail v →
      kdlEvent input = .ok tail (.Argument v)) := by
  constructor
  · intro input r1 r2 k e h1 h2 h3
    simp only [parse_property, pMap, pAnd, pTerminated, h1, h2, h3]
  · intro input rest tail v e h1 h2 h3
    simp only [kdlEvent, parse_node_event, pAlt, pPrecededBy, pMap, h1, h2, h3]

/-- Witness for the amended C3 at the concrete body. -/
theorem c3_amended_backtracks_after_equals_witness :
    parse_property strK annK strK valK numK strK ( "\"abc\"=!\n".toList) =
      .err ⟨ "!\n".toList, false⟩ ∧
    kdlEvent ( " \"abc\"=!\n".toList) =
      .ok ( "=!\n".toList) (.Argument ⟨none, .String ( "abc".toList)⟩) :=
  ⟨c3_amended_backtracks_after_equals.1 ( "\"abc\"=!\n".toList) ( "=!\n".toList)
      ( "!\n".toList) ( "abc".toList) ⟨ "!\n".toList, false⟩
      (by decide) (by decide) (by decide),
   c3_amended_backtracks_after_equals.2 ( " \"abc\"=!\n".toList)
      ( "\"abc\"=!\n".toList) ( "=!\n".toList) ⟨none, .String ( "abc".toList)⟩
      ⟨ "!\n".toList, false⟩ (by decide) (by decide) (by decide)⟩

/-- The optional sign is Negative exactly when the input starts with a
minus. -/
theorem parse_optional_sign_negative_iff (input t : List Char) (s : Sign)
    (h : parse_optional_sign input = .ok t s) :
    (s = Sign.Negative ↔ input.head? = some '-') := by
  cases input with
  | nil =>
    simp [parse_optional_sign, parse_sign, pMap, pOpt, pAlt, pConst, pChar] at h
    simp [h.2.symm]
  | cons c rest =>
    by_cases hp : c = '+'
    · subst hp
      simp [parse_optional_sign, parse_sign, pMap, pOpt, pAlt, pConst, pChar] at h
      simp [h.2.symm]
    · by_cases hm : c = '-'
      · subst hm
        simp [parse_optional_sign, parse_sign, pMap, pOpt, pAlt, pConst, pChar] at h
        simp [h.2.symm]
      · simp [parse_optional_sign, parse_sign, pMap, pOpt, pAlt, pConst, pChar,
          hp, hm] at h
        simp [h.2.symm, hm]

/-- An invariant preserved by the fold is preserved through the
separated-terminated loop. -/
theorem sepTermLoop_ok_inv {α σ τ β : Type} {item : KP α} {sep : KP σ}
    {term : KP τ} {fold : β → α → Option β} {Q : β → Prop}
    (hf : ∀ b a b2, fold b a = some b2 → Q b → Q b2) :
    ∀ (fuel : Nat) (acc : β) (input tail : List Char) (out : β), Q acc →
      sepTermLoop item sep term fold fuel acc input = .ok tail out → Q out := by
  intro fuel
  induction fuel with
  | zero =>
    intro acc input tail out hq h
    simp [sepTermLoop] at h
  | succ f ih =>
    intro acc input tail out hq h
    simp only [sepTermLoop] at h
    cases ht : term input with
    | ok t x =>
      simp only [ht] at h
      injection h with h1 h2
      subst h2
      exact hq
    | fail e1 => simp [ht] at h
    | err e1 =>
      simp only [ht] at h
      cases hs : sep input with
      | fail e2 => simp [hs] at h
      | err e2 => simp [hs] at h
      | ok st y =>
        simp only [hs] at h
        cases hit : item st with
        | fail e3 => simp [hit] at h
        | err e3 => simp [hit] at h
        | ok it v =>
          simp only [hit] at h
          cases hfold : fold acc v with
          | none => simp [hfold] at h
          | some acc2 =>
            simp only [hfold] at h
            exact ih acc2 it tail out (hf acc v acc2 hfold hq) h

/-- An invariant of the initial accumulator preserved by the fold holds for
the result of the separated-terminated parser. -/
theorem sepTerm_ok_inv {α σ τ β : Type} {item : KP α} {sep : KP σ}
    {term : KP τ} {init : β} {fold : β → α → Option β} {Q : β → Prop}
    (hf : ∀ b a b2, fold b a = some b2 → Q b → Q b2) (hinit : Q init)
    (input tail : List Char) (out : β)
    (h : sepTerm item sep term init fold input = .ok tail out) : Q out := by
  simp only [sepTerm] at h
  cases hi : item input with
  | err e => simp [hi] at h
  | fail e => simp [hi] at h
  | ok t v =>
    simp only [hi] at h
    cases hfold : fold init v with
    | none => simp [hfold] at h
    | some acc =>
      simp only [hfold] at h
      exact sepTermLoop_ok_inv hf (t.length + 1) acc t tail out
        (hf init v acc hfold hinit) h

/-- Appending one digit with checked arithmetic never changes the signedness
variant. -/
theorem add_digit_preserves_isSigned (a : KdlInt) (d r : Nat) (b : KdlInt)
    (h : KdlInt.add_digit a d r = some b) :
    KdlInt.isSigned b = KdlInt.isSigned a := by
  cases a with
  | Signed v =>
    simp only [KdlInt.add_digit] at h
    split at h
    · simp at h
    · split at h
      · simp at h
      · injection h with h2
        subst h2
        rfl
  | Unsigned v =>
    simp only [KdlInt.add_digit] at h
    split at h
    · simp at h
    · split at h
      · simp at h
      · injection h with h2
        subst h2
        rfl

/-- Folding a digit group never changes the signedness variant. -/
theorem foldDigits_preserves_isSigned (radix : Nat) :
    ∀ (digits : List Char) (a b : KdlInt),
      foldDigits intK radix a digits = some b →
      KdlInt.isSigned b = KdlInt.isSigned a := by
  intro digits
  induction digits with
  | nil =>
    intro a b h
    simp [foldDigits] at h
    simp [h]
  | cons c cs ih =>
    intro a b h
    cases hstep : KdlInt.add_digit a (hexDigitVal c) radix with
    | none =>
      simp [foldDigits, hstep, intK] at h
    | some a2 =>
      have h2 : foldDigits intK radix a2 cs = some b := by
        simpa [foldDigits, intK, hstep] using h
      exact (ih a2 b h2).trans (add_digit_preserves_isSigned a _ radix a2 hstep)

/-- A successful radix-prefixed parse yields the signed variant exactly when
the input begins with a minus sign. -/
theorem parse_weird_number_isSigned (input tail : List Char) (n : KdlInt)
    (h : parse_weird_number intK input = .ok tail n) :
    (KdlInt.isSigned n = true ↔ input.head? = some '-') := by
  simp only [parse_weird_number] at h
  cases hs : parse_optional_sign input with
  | err e => simp [hs] at h
  | fail e => simp [hs] at h
  | ok t1 sign =>
    simp only [hs] at h
    cases hb : parse_base t1 with
    | err e => simp [hb] at h
    | fail e => simp [hb] at h
    | ok t2 base =>
      simp only [hb] at h
      have hsign := parse_optional_sign_negative_iff input t1 sign hs
      have hQ : KdlInt.isSigned n = KdlInt.isSigned (KdlInt.start sign) := by
        have hfold : ∀ (b : KdlInt) (a : List Char) (b2 : KdlInt),
            foldDigits intK 2 b a = some b2 ∨ foldDigits intK 8 b a = some b2 ∨
              foldDigits intK 16 b a = some b2 →
            KdlInt.isSigned b2 = KdlInt.isSigned b := by
          intro b a b2 hd
          rcases hd with hd | hd | hd
          · exact foldDigits_preserves_isSigned 2 a b b2 hd
          · exact foldDigits_preserves_isSigned 8 a b b2 hd
          · exact foldDigits_preserves_isSigned 16 a b b2 hd
        cases base <;>
          · simp only [pCut, parse_integer_part] at h
            generalize hin2 : sepTerm _ _ _ _ _ t2 = r at h
            cases r with
            | err e => simp at h
            | fail e => simp at h
            | ok tin vin =>
              injection h with h1 h2
              subst h2
              refine sepTerm_ok_inv (Q := fun x =>
                KdlInt.isSigned x = KdlInt.isSigned (KdlInt.start sign)) ?_ ?_ t2 tin vin hin2
              · intro b a b2 hfo hqb
                rw [foldDigits_preserves_isSigned _ a b b2 hfo]
                exact hqb
              · rfl
      rw [hQ]
      cases sign with
      | Positive =>
        simp only [KdlInt.start, KdlInt.isSigned]
        constructor
        · intro hfalse
          exact absurd hfalse (by simp)
        · intro hhead
          exact absurd (hsign.2 hhead) (by simp)
      | Negative =>
        simp only [KdlInt.start, KdlInt.isSigned]
        simp [hsign.1 rfl]

/-- Classification of a decimal token by the builder from_str: float mark
means float; otherwise the signed variant exactly for a leading minus. -/
theorem kdlNumFromStr_classify (s : List Char) (n : KdlNumber)
    (h : kdlNumFromStr s = some n) :
    (KdlNumber.isFloat n = true ↔ hasFloatMark (stripUnderscores s) = true) ∧
    (hasFloatMark (stripUnderscores s) = false →
      (KdlNumber.isSignedNum n = true ↔ (stripUnderscores s).head? = some '-')) := by
  simp only [kdlNumFromStr] at h
  split at h
  · simp at h
  · split at h
    · rename_i hfm
      injection h with h2
      subst h2
      constructor
      · simp [KdlNumber.isFloat, hfm]
      · intro hfm2
        simp [hfm] at hfm2
    · rename_i hfm
      split at h
      · rename_i hneg
        cases hi : i64FromStr (stripUnderscores s) with
        | none => simp [hi] at h
        | some v =>
          simp only [hi] at h
          injection h with h2
          subst h2
          constructor
          · simp [KdlNumber.isFloat]
            simpa using hfm
          · intro hfm2
            simp [KdlNumber.isSignedNum, hneg]
      · rename_i hneg
        cases hu : u64FromStr (stripUnderscores s) with
        | none => simp [hu] at h
        | some v =>
          simp only [hu] at h
          injection h with h2
          subst h2
          constructor
          · simp [KdlNumber.isFloat]
            simpa using hfm
          · intro hfm2
            simp [KdlNumber.isSignedNum, hneg]

/-- Claim C4: parse_number classifies every radix-prefixed token as an
integer, signed exactly when a minus sign leads (first conjunct); every
decimal token with a fractional part or exponent as a float, every other
decimal token as signed exactly when a minus sign leads, else unsigned
(second conjunct); and the nine concrete round-trips of the claim hold. -/
theorem c4_number_classification :
    (∀ input tail n, parse_weird_number intK input = .ok tail n →
      (KdlInt.isSigned n = true ↔ input.head? = some '-')) ∧
    (∀ s n, kdlNumFromStr s = some n →
      ((KdlNumber.isFloat n = true ↔ hasFloatMark (stripUnderscores s) = true) ∧
       (hasFloatMark (stripUnderscores s) = false →
         (KdlNumber.isSignedNum n = true ↔ (stripUnderscores s).head? = some '-')))) ∧
    parse_number numK ( "10".toList) = .ok [] (.Unsigned 10) ∧
    parse_number numK ( "-10".toList) = .ok [] (.Signed (-10)) ∧
    parse_number numK ( "-10.5".toList) = .ok [] (.Float (mkRat (-21) 2)) ∧
    parse_number numK ( "10.5e3".toList) = .ok [] (.Float (mkRat 10500 1)) ∧
    parse_number numK ( "0xFF".toList) = .ok [] (.Unsigned 255) ∧
    parse_number numK ( "-0x0A".toList) = .ok [] (.Signed (-10)) ∧
    parse_number numK ( "0b00001111".toList) = .ok [] (.Unsigned 15) ∧
    parse_number numK ( "-0o7777".toList) = .ok [] (.Signed (-4095)) ∧
    parse_number numK ( "1_000_000".toList) = .ok [] (.Unsigned 1000000) := by
  refine ⟨parse_weird_number_isSigned, kdlNumFromStr_classify, by decide, by decide,
    by decide, by decide, by decide, by decide, by decide, by decide, by decide⟩

/-- Witness for C4's general parts at concrete tokens. -/
theorem c4_number_classification_witness :
    (KdlInt.isSigned (KdlInt.Signed (-10)) = true ↔
      ( "-0x0A".toList).head? = some '-') ∧
    ((KdlNumber.isFloat (KdlNumber.Float (mkRat 10500 1)) = true ↔
        hasFloatMark (stripUnderscores ( "10.5e3".toList)) = true) ∧
     (hasFloatMark (stripUnderscores ( "10.5e3".toList)) = false →
       (KdlNumber.isSignedNum (KdlNumber.Float (mkRat 10500 1)) = true ↔
         (stripUnderscores ( "10.5e3".toList)).head? = some '-'))) :=
  ⟨c4_number_classification.1 ( "-0x0A".toList) [] (KdlInt.Signed (-10)) (by decide),
   c4_number_classification.2.1 ( "10.5e3".toList) (KdlNumber.Float (mkRat 10500 1))
     (by decide)⟩

/-- pChar on a matching head. -/
theorem pChar_cons_eq (c : Char) (rest : List Char) :
    pChar c (c :: rest) = .ok rest c := by
  simp [pChar]

/-- pChar on a mismatching head. -/
theorem pChar_cons_ne (c x : Char) (rest : List Char) (h : x ≠ c) :
    pChar c (x :: rest) = .err ⟨x :: rest, false⟩ := by
  simp [pChar, h]

/-- Soundness of the raw-string scan: a successful scan decomposes the input
as payload, quote, hashes, tail, and no quote inside the payload is followed
by a full run of hashes (every earlier quote is literal content). -/
theorem rawBody_sound (n : Nat) :
    ∀ (rest p t : List Char), rawBody n rest = some (p, t) →
      rest = p ++ '"' :: List.replicate n '#' ++ t ∧
      (∀ p1 p2, p = p1 ++ '"' :: p2 →
        ((p2 ++ '"' :: List.replicate n '#' ++ t).take n).all (fun x => x = '#') = false) := by
  intro rest
  induction rest with
  | nil =>
    intro p t h
    simp [rawBody] at h
  | cons c cs ih =>
    intro p t h
    by_cases hq : c = '"'
    · subst hq
      simp only [rawBody, if_pos rfl] at h
      by_cases hlen : cs.length < n
      · simp [hlen] at h
      · rw [if_neg hlen] at h
        by_cases hall : (cs.take n).all (fun x => x = '#') = true
        · rw [if_pos hall] at h
          injection h with h2
          injection h2 with hp ht
          subst hp
          subst ht
          have htake : cs.take n = List.replicate n '#' := by
            rw [List.eq_replicate_iff]
            refine ⟨?_, ?_⟩
            · simp [List.length_take]
              omega
            · intro b hb
              have hall2 := List.all_eq_true.mp hall b hb
              simpa using hall2
          constructor
          · have hsplit := (List.take_append_drop n cs).symm
            rw [htake] at hsplit
            simpa using hsplit
          · intro p1 p2 hps
            simp at hps
        · rw [if_neg hall] at h
          cases hr : rawBody n cs with
          | none => simp [hr] at h
          | some pt =>
            obtain ⟨p', t'⟩ := pt
            rw [hr] at h
            injection h with h2
            injection h2 with hp ht
            subst hp
            subst ht
            obtain ⟨hdec, hmin⟩ := ih p' t' hr
            constructor
            · simpa using hdec
            · intro p1 p2 hps
              cases p1 with
              | nil =>
                simp at hps
                obtain ⟨rfl⟩ := hps
                rw [← hdec]
                cases hb : (cs.take n).all (fun x => x = '#') with
                | false => rfl
                | true => exact absurd hb hall
              | cons a p1' =>
                simp at hps
                obtain ⟨ha, hp'⟩ := hps
                exact hmin p1' p2 hp'
    · simp only [rawBody, if_neg hq] at h
      cases hr : rawBody n cs with
      | none => simp [hr] at h
      | some pt =>
        obtain ⟨p', t'⟩ := pt
        rw [hr] at h
        injection h with h2
        injection h2 with hp ht
        subst hp
        subst ht
        obtain ⟨hdec, hmin⟩ := ih p' t' hr
        constructor
        · simpa using hdec
        · intro p1 p2 hps
          cases p1 with
          | nil =>
            simp at hps
            exact absurd hps.1 hq
          | cons a p1' =>
            simp at hps
            exact hmin p1' p2 hps.2

/-- When no closing sequence exists, the raw-string scan reports an
unexpected end of input. -/
theorem rawBody_none_of_no_close (n : Nat) :
    ∀ rest : List Char, hasClose n rest = false → rawBody n rest = none := by
  intro rest
  induction rest with
  | nil => intro h; rfl
  | cons c cs ih =>
    intro h
    simp only [hasClose, Bool.or_eq_false_iff] at h
    obtain ⟨h1, h2⟩ := h
    by_cases hq : c = '"'
    · subst hq
      simp only [rawBody, if_pos rfl]
      by_cases hlen : cs.length < n
      · simp [hlen]
      · have hle : n ≤ cs.length := Nat.le_of_not_lt hlen
        have hall : (cs.take n).all (fun x => x = '#') = false := by
          simpa [hle] using h1
        simp [hlen, hall, ih h2]
    · simp only [rawBody, if_neg hq]
      simp [ih h2]

/-- The hash-counting loop of a raw-string opener. -/
theorem countHashes_loop_replicate :
    ∀ (k acc fuel : Nat) (rest : List Char), k < fuel →
      sepTermLoop (pChar '#') pSuccess (pChar '"') (fun m _ => some (m + 1)) fuel acc
        (List.replicate k '#' ++ '"' :: rest) = .ok rest (acc + k) := by
  intro k
  induction k with
  | zero =>
    intro acc fuel rest hf
    cases fuel with
    | zero => omega
    | succ f => simp [sepTermLoop, pChar_cons_eq]
  | succ k ih =>
    intro acc fuel rest hf
    cases fuel with
    | zero => omega
    | succ f =>
      have hterm := pChar_cons_ne '"' '#' (List.replicate k '#' ++ '"' :: rest) (by decide)
      have hrec := ih (acc + 1) f rest (by omega)
      simp only [List.replicate_succ, List.cons_append, sepTermLoop, hterm, pSuccess,
        pChar_cons_eq, hrec]
      simp [PResult.ok.injEq]
      omega

/-- Counting the hashes of a raw-string opener. -/
theorem countHashes_replicate (n : Nat) (rest : List Char) :
    countHashes (List.replicate n '#' ++ '"' :: rest) = .ok rest n := by
  cases n with
  | zero =>
    have h1 := pChar_cons_ne '#' '"' rest (by decide)
    simp [countHashes, pAlt, sepTerm, pConst, pMap, pChar_cons_eq, h1]
  | succ k =>
    have hloop := countHashes_loop_replicate k 1
      ((List.replicate k '#' ++ '"' :: rest).length + 1) rest
      (by simp [List.length_append, List.length_replicate]; omega)
    simp only [List.replicate_succ, List.cons_append, countHashes, pAlt, sepTerm,
      pChar_cons_eq, hloop]
    simp [PResult.ok.injEq]
    omega

/-- parse_raw_string on a well-formed opener reduces to the scan. -/
theorem parse_raw_string_eq (n : Nat) (rest : List Char) :
    parse_raw_string ('r' :: (List.replicate n '#' ++ '"' :: rest)) =
      (match rawBody n rest with
       | some pt => .ok pt.2 pt.1
       | none => .fail ⟨[], false⟩) := by
  simp only [parse_raw_string, pPrecededBy, pChar_cons_eq, countHashes_replicate]
  cases rawBody n rest with
  | none => rfl
  | some pt => rfl

/-- Claim C6: a raw string parses to exactly the content extending to the
first quote followed by n hashes (any quote followed by too few hashes stays
literal content: the minimality conjunct); when no closing sequence occurs
before end of input, the parse fails hard with an error positioned at end of
input; and the concrete round-trips of the claim hold. -/
theorem c6_raw_string_first_close :
    (∀ (n : Nat) (rest p t : List Char), rawBody n rest = some (p, t) →
      parse_raw_string ('r' :: (List.replicate n '#' ++ '"' :: rest)) = .ok t p ∧
      rest = p ++ '"' :: List.replicate n '#' ++ t ∧
      (∀ p1 p2, p = p1 ++ '"' :: p2 →
        ((p2 ++ '"' :: List.replicate n '#' ++ t).take n).all (fun x => x = '#') = false)) ∧
    (∀ (n : Nat) (rest : List Char), hasClose n rest = false →
      parse_raw_string ('r' :: (List.replicate n '#' ++ '"' :: rest)) = .fail ⟨[], false⟩) ∧
    parse_raw_string ( "r\"abc\"def".toList) = .ok ( "def".toList) ( "abc".toList) ∧
    parse_raw_string ( "r##\"abc\"##def".toList) = .ok ( "def".toList) ( "abc".toList) ∧
    parse_raw_string ( "r##\"abc\"#abc\"##def".toList) =
      .ok ( "def".toList) ( "abc\"#abc".toList) ∧
    parse_raw_string ( "r###\"abc\"".toList) = .fail ⟨[], false⟩ := by
  refine ⟨?_, ?_, by decide, by decide, by decide, by decide⟩
  · intro n rest p t h
    obtain ⟨hdec, hmin⟩ := rawBody_sound n rest p t h
    refine ⟨?_, hdec, hmin⟩
    rw [parse_raw_string_eq, h]
  · intro n rest h
    rw [parse_raw_string_eq, rawBody_none_of_no_close n rest h]

/-- Witness for C6 at the concrete raw strings of the claim. -/
theorem c6_raw_string_first_close_witness :
    parse_raw_string ('r' :: (List.replicate 2 '#' ++ '"' :: ( "abc\"#abc\"##def".toList))) =
      .ok ( "def".toList) ( "abc\"#abc".toList) ∧
    parse_raw_string ('r' :: (List.replicate 3 '#' ++ '"' :: ( "abc\"".toList))) =
      .fail ⟨[], false⟩ :=
  ⟨(c6_raw_string_first_close.1 2 ( "abc\"#abc\"##def".toList) ( "abc\"#abc".toList)
      ( "def".toList) (by decide)).1,
   c6_raw_string_first_close.2.1 3 ( "abc\"".toList) (by decide)⟩

/-- Mapping preserves freedom from BoundsError. -/
theorem nb_pMap {α β : Type} (p : KP α) (f : α → β)
    (hp : ∀ i, (p i).noBounds = true) : ∀ i, (pMap p f i).noBounds = true := by
  intro i
  have h2 := hp i
  simp only [pMap]
  cases h : p i with
  | ok t v => rfl
  | err e => rw [h] at h2; exact h2
  | fail e => rw [h] at h2; exact h2

/-- Alternation preserves freedom from BoundsError. -/
theorem nb_pAlt {α : Type} (p q : KP α)
    (hp : ∀ i, (p i).noBounds = true) (hq : ∀ i, (q i).noBounds = true) :
    ∀ i, (pAlt p q i).noBounds = true := by
  intro i
  have h2 := hp i
  simp only [pAlt]
  cases h : p i with
  | ok t v => rfl
  | err e => exact hq i
  | fail e => rw [h] at h2; exact h2

/-- Pairing preserves freedom from BoundsError. -/
theorem nb_pAnd {α β : Type} (p : KP α) (q : KP β)
    (hp : ∀ i, (p i).noBounds = true) (hq : ∀ i, (q i).noBounds = true) :
    ∀ i, (pAnd p q i).noBounds = true := by
  intro i
  simp only [pAnd]
  split
  · rename_i t v h
    split
    · rfl
    · rename_i e h4
      have h3 := hq t
      rw [h4] at h3
      exact h3
    · rename_i e h4
      have h3 := hq t
      rw [h4] at h3
      exact h3
  · rename_i e h
    have h2 := hp i
    rw [h] at h2
    exact h2
  · rename_i e h
    have h2 := hp i
    rw [h] at h2
    exact h2

/-- preceded_by preserves freedom from BoundsError. -/
theorem nb_pPrecededBy {α β : Type} (p : KP α) (pre : KP β)
    (hp : ∀ i, (p i).noBounds = true) (hpre : ∀ i, (pre i).noBounds = true) :
    ∀ i, (pPrecededBy p pre i).noBounds = true := by
  intro i
  have h2 := hpre i
  simp only [pPrecededBy]
  cases h : pre i with
  | ok t v => exact hp t
  | err e => rw [h] at h2; exact h2
  | fail e => rw [h] at h2; exact h2

/-- precedes preserves freedom from BoundsError. -/
theorem nb_pPrecedes {α β : Type} (a : KP α) (b : KP β)
    (ha : ∀ i, (a i).noBounds = true) (hb : ∀ i, (b i).noBounds = true) :
    ∀ i, (pPrecedes a b i).noBounds = true := by
  intro i
  have h2 := ha i
  simp only [pPrecedes]
  cases h : a i with
  | ok t v => exact hb t
  | err e => rw [h] at h2; exact h2
  | fail e => rw [h] at h2; exact h2

/-- terminated preserves freedom from BoundsError. -/
theorem nb_pTerminated {α β : Type} (p : KP α) (post : KP β)
    (hp : ∀ i, (p i).noBounds = true) (hpost : ∀ i, (post i).noBounds = true) :
    ∀ i, (pTerminated p post i).noBounds = true := by
  intro i
  simp only [pTerminated]
  split
  · rename_i t v h
    split
    · rfl
    · rename_i e h4
      have h3 := hpost t
      rw [h4] at h3
      exact h3
    · rename_i e h4
      have h3 := hpost t
      rw [h4] at h3
      exact h3
  · rename_i e h
    have h2 := hp i
    rw [h] at h2
    exact h2
  · rename_i e h
    have h2 := hp i
    rw [h] at h2
    exact h2

/-- opt preserves freedom from BoundsError. -/
theorem nb_pOpt {α : Type} (p : KP α) (hp : ∀ i, (p i).noBounds = true) :
    ∀ i, (pOpt p i).noBounds = true := by
  intro i
  have h2 := hp i
  simp only [pOpt]
  cases h : p i with
  | ok t v => rfl
  | err e => rfl
  | fail e => rw [h] at h2; exact h2

/-- cut preserves freedom from BoundsError. -/
theorem nb_pCut {α : Type} (p : KP α) (hp : ∀ i, (p i).noBounds = true) :
    ∀ i, (pCut p i).noBounds = true := by
  intro i
  have h2 := hp i
  simp only [pCut]
  cases h : p i with
  | ok t v => rfl
  | err e => rw [h] at h2; exact h2
  | fail e => rw [h] at h2; exact h2

/-- not preserves freedom from BoundsError. -/
theorem nb_pNot {α : Type} (p : KP α) (hp : ∀ i, (p i).noBounds = true) :
    ∀ i, (pNot p i).noBounds = true := by
  intro i
  have h2 := hp i
  simp only [pNot]
  cases h : p i with
  | ok t v => rfl
  | err e => rfl
  | fail e => rw [h] at h2; exact h2

/-- recognize preserves freedom from BoundsError. -/
theorem nb_pRecognize {α : Type} (p : KP α) (hp : ∀ i, (p i).noBounds = true) :
    ∀ i, (pRecognize p i).noBounds = true := by
  intro i
  have h2 := hp i
  simp only [pRecognize]
  cases h : p i with
  | ok t v => rfl
  | err e => rw [h] at h2; exact h2
  | fail e => rw [h] at h2; exact h2

/-- map_res_cut with a total mapping preserves freedom from BoundsError. -/
theorem nb_pMapResCut_total {α β : Type} (p : KP α) (f : α → Option β) (flag : Bool)
    (hp : ∀ i, (p i).noBounds = true) (hf : ∀ v, ∃ w, f v = some w) :
    ∀ i, (pMapResCut p f flag i).noBounds = true := by
  intro i
  simp only [pMapResCut]
  split
  · rename_i t v h
    obtain ⟨w, hw⟩ := hf v
    rw [hw]
    rfl
  · rename_i e h
    have h2 := hp i
    rw [h] at h2
    exact h2
  · rename_i e h
    have h2 := hp i
    rw [h] at h2
    exact h2

/-- pChar never raises BoundsError. -/
theorem nb_pChar (c : Char) : ∀ i, (pChar c i).noBounds = true := by
  intro i
  cases i with
  | nil => rfl
  | cons x rest =>
    by_cases h : x = c <;> simp [pChar, h, PResult.noBounds]

/-- pTag never raises BoundsError. -/
theorem nb_pTag (s : List Char) : ∀ i, (pTag s i).noBounds = true := by
  intro i
  simp only [pTag]
  split <;> rfl

/-- pEof never raises BoundsError. -/
theorem nb_pEof : ∀ i, (pEof i).noBounds = true := by
  intro i
  cases i <;> rfl

/-- pSuccess never raises BoundsError. -/
theorem nb_pSuccess : ∀ i, (pSuccess i).noBounds = true := by
  intro i
  rfl

/-- takeWhile1 never raises BoundsError. -/
theorem nb_takeWhile1 (f : Char → Bool) : ∀ i, (takeWhile1 f i).noBounds = true := by
  intro i
  simp only [takeWhile1]
  split <;> rfl

/-- The at_least_one loop preserves freedom from BoundsError. -/
theorem nb_atLeastOneLoop {α : Type} (p : KP α) (hp : ∀ i, (p i).noBounds = true) :
    ∀ fuel i, (atLeastOneLoop p fuel i).noBounds = true := by
  intro fuel
  induction fuel with
  | zero => intro i; rfl
  | succ f ih =>
    intro i
    have h2 := hp i
    simp only [atLeastOneLoop]
    cases h : p i with
    | ok t v => exact ih t
    | err e => rfl
    | fail e => rw [h] at h2; exact h2

/-- at_least_one preserves freedom from BoundsError. -/
theorem nb_atLeastOne {α : Type} (p : KP α) (hp : ∀ i, (p i).noBounds = true) :
    ∀ i, (atLeastOne p i).noBounds = true := by
  intro i
  have h2 := hp i
  simp only [atLeastOne]
  cases h : p i with
  | ok t v => exact nb_atLeastOneLoop p hp (t.length + 1) t
  | err e => rw [h] at h2; exact h2
  | fail e => rw [h] at h2; exact h2

/-- The separated-terminated loop with a total fold preserves freedom from
BoundsError. -/
theorem nb_sepTermLoop_total {α σ τ β : Type} (item : KP α) (sep : KP σ)
    (term : KP τ) (fold : β → α → Option β)
    (hitem : ∀ i, (item i).noBounds = true) (hsep : ∀ i, (sep i).noBounds = true)
    (hterm : ∀ i, (term i).noBounds = true)
    (hfold : ∀ b a, ∃ b2, fold b a = some b2) :
    ∀ fuel acc i, (sepTermLoop item sep term fold fuel acc i).noBounds = true := by
  intro fuel
  induction fuel with
  | zero => intro acc i; rfl
  | succ f ih =>
    intro acc i
    simp only [sepTermLoop]
    split
    · rfl
    · rename_i e ht
      have h2 := hterm i
      rw [ht] at h2
      exact h2
    · split
      · rename_i e ht e2 hs
        have h3 := hsep i
        rw [hs] at h3
        exact h3
      · rename_i e ht e2 hs
        have h3 := hsep i
        rw [hs] at h3
        exact h3
      · rename_i st y hs
        split
        · rename_i e3 hit
          have h4 := hitem st
          rw [hit] at h4
          exact h4
        · rename_i e3 hit
          have h4 := hitem st
          rw [hit] at h4
          exact h4
        · rename_i it v hit
          obtain ⟨b2, hb2⟩ := hfold acc v
          rw [hb2]
          exact ih b2 it

/-- The separated-terminated parser with a total fold preserves freedom from
BoundsError. -/
theorem nb_sepTerm_total {α σ τ β : Type} (item : KP α) (sep : KP σ)
    (term : KP τ) (init : β) (fold : β → α → Option β)
    (hitem : ∀ i, (item i).noBounds = true) (hsep : ∀ i, (sep i).noBounds = true)
    (hterm : ∀ i, (term i).noBounds = true)
    (hfold : ∀ b a, ∃ b2, fold b a = some b2) :
    ∀ i, (sepTerm item sep term init fold i).noBounds = true := by
  intro i
  simp only [sepTerm]
  split
  · rename_i e hi
    have h2 := hitem i
    rw [hi] at h2
    exact h2
  · rename_i e hi
    have h2 := hitem i
    rw [hi] at h2
    exact h2
  · rename_i t v hi
    obtain ⟨b2, hb2⟩ := hfold init v
    rw [hb2]
    exact nb_sepTermLoop_total item sep term fold hitem hsep hterm hfold (t.length + 1) b2 t

/-- The sign parser never raises BoundsError. -/
theorem nb_parse_optional_sign : ∀ i, (parse_optional_sign i).noBounds = true := by
  unfold parse_optional_sign parse_sign pConst
  exact nb_pMap _ _ (nb_pOpt _
    (nb_pAlt _ _ (nb_pMap _ _ (nb_pChar '+')) (nb_pMap _ _ (nb_pChar '-'))))

/-- The radix-prefix parser never raises BoundsError. -/
theorem nb_parse_base : ∀ i, (parse_base i).noBounds = true := by
  unfold parse_base pConst
  exact nb_pAlt _ _ (nb_pMap _ _ (nb_pTag _))
    (nb_pAlt _ _ (nb_pMap _ _ (nb_pTag _)) (nb_pMap _ _ (nb_pTag _)))

/-- The recognize-only digit fold is total: it performs no arithmetic and
never reports overflow. -/
theorem foldDigits_intU_total (radix : Nat) :
    ∀ (digits : List Char) (acc : Unit),
      ∃ b, foldDigits intU radix acc digits = some b := by
  intro digits
  induction digits with
  | nil => intro acc; exact ⟨acc, rfl⟩
  | cons c cs ih =>
    intro acc
    obtain ⟨b, hb⟩ := ih ()
    refine ⟨b, ?_⟩
    simpa [foldDigits, intU, List.foldlM_cons] using hb

/-- Recognize-only integer-part parsing never raises BoundsError. -/
theorem nb_parse_integer_part_intU {β : Type} (np : KP β) (radix : Nat) (sign : Sign)
    (hnp : ∀ i, (np i).noBounds = true) :
    ∀ i, (parse_integer_part np radix sign intU i).noBounds = true := by
  unfold parse_integer_part
  exact nb_sepTerm_total _ _ _ _ _ (nb_pRecognize _ hnp)
    (nb_atLeastOne _ (nb_pChar '_')) (nb_pNot _ (nb_pChar '_'))
    (fun b a => foldDigits_intU_total radix a b)

/-- Recognize-only radix-number parsing never raises BoundsError. -/
theorem nb_parse_weird_intU : ∀ i, (parse_weird_number intU i).noBounds = true := by
  intro i
  simp only [parse_weird_number]
  split
  · rename_i e hs
    have h1 := nb_parse_optional_sign i
    rw [hs] at h1
    exact h1
  · rename_i e hs
    have h1 := nb_parse_optional_sign i
    rw [hs] at h1
    exact h1
  · rename_i t1 sign hs
    split
    · rename_i e hb
      have h1 := nb_parse_base t1
      rw [hb] at h1
      exact h1
    · rename_i e hb
      have h1 := nb_parse_base t1
      rw [hb] at h1
      exact h1
    · rename_i t2 base hb
      cases base with
      | Binary =>
        exact nb_pCut _ (nb_parse_integer_part_intU _ 2 sign
          (nb_atLeastOne _ (nb_pAlt _ _ (nb_pChar '0') (nb_pChar '1')))) t2
      | Octal =>
        exact nb_pCut _ (nb_parse_integer_part_intU _ 8 sign (nb_takeWhile1 _)) t2
      | Hex =>
        exact nb_pCut _ (nb_parse_integer_part_intU _ 16 sign (nb_takeWhile1 _)) t2

/-- The decimal-component recognizer never raises BoundsError. -/
theorem nb_recognize_decimal : ∀ i, (recognize_decimal_component i).noBounds = true := by
  unfold recognize_decimal_component digit1
  exact nb_parse_integer_part_intU _ 10 _ (nb_takeWhile1 _)

/-- Recognize-only decimal-number parsing never raises BoundsError. -/
theorem nb_parse_decimal_numU : ∀ i, (parse_decimal_number numU i).noBounds = true := by
  unfold parse_decimal_number
  exact nb_pMapResCut_total _ _ _
    (nb_pRecognize _
      (nb_pTerminated _ _
        (nb_pTerminated _ _
          (nb_pTerminated _ _ nb_parse_optional_sign nb_recognize_decimal)
          (nb_pOpt _ (nb_pPrecededBy _ _ (nb_pCut _ nb_recognize_decimal) (nb_pChar '.'))))
        (nb_pOpt _ (nb_pPrecededBy _ _
          (nb_pCut _ (nb_pTerminated _ _ nb_parse_optional_sign nb_recognize_decimal))
          (nb_pAlt _ _ (nb_pChar 'e') (nb_pChar 'E'))))))
    (fun _ => ⟨(), rfl⟩)

/-- Recognize-only number parsing never raises BoundsError. -/
theorem nb_parse_number_numU : ∀ i, (parse_number numU i).noBounds = true := by
  unfold parse_number
  exact nb_pAlt _ _ (nb_pMap _ _ nb_parse_weird_intU) nb_parse_decimal_numU

/-- cut never returns a recoverable error. -/
theorem pCut_ne_err {α : Type} (p : KP α) (i : List Char) (e : PError) :
    pCut p i ≠ .err e := by
  simp only [pCut]
  split <;> simp

/-- Relational loop lemma: when the recognize-only run of the
separated-terminated loop succeeds, the materializing run on the same input
either succeeds with the same tail or fails with a BoundsError. -/
theorem sepTermLoop_rel {α σ τ β : Type} {item : KP α} {sep : KP σ} {term : KP τ}
    {f : Unit → α → Option Unit} {g : β → α → Option β}
    (hf : ∀ a x, f a x = some ()) :
    ∀ (fuel : Nat) (acc : β) (input tail : List Char),
      sepTermLoop item sep term f fuel () input = .ok tail () →
      (∃ out, sepTermLoop item sep term g fuel acc input = .ok tail out) ∨
      (∃ e, sepTermLoop item sep term g fuel acc input = .fail e ∧ e.bounds = true) := by
  intro fuel
  induction fuel with
  | zero =>
    intro acc input tail h
    simp [sepTermLoop] at h
  | succ fu ih =>
    intro acc input tail h
    simp only [sepTermLoop] at h ⊢
    cases ht : term input with
    | ok t x =>
      simp only [ht] at h ⊢
      injection h with h1 h2
      subst h1
      exact Or.inl ⟨acc, rfl⟩
    | fail e1 =>
      simp only [ht] at h
      exact absurd h (by simp)
    | err e1 =>
      simp only [ht] at h ⊢
      cases hs : sep input with
      | fail e2 =>
        simp only [hs] at h
        exact absurd h (by simp)
      | err e2 =>
        simp only [hs] at h
        exact absurd h (by simp)
      | ok st y =>
        simp only [hs] at h ⊢
        cases hit : item st with
        | fail e3 =>
          simp only [hit] at h
          exact absurd h (by simp)
        | err e3 =>
          simp only [hit] at h
          exact absurd h (by simp)
        | ok it v =>
          simp only [hit] at h ⊢
          simp only [hf () v] at h
          cases hg : g acc v with
          | none =>
            simp only [hg]
            exact Or.inr ⟨⟨it, true⟩, rfl, rfl⟩
          | some acc2 =>
            simp only [hg]
            exact ih acc2 it tail h

/-- Relational lemma for the separated-terminated parser. -/
theorem sepTerm_rel {α σ τ β : Type} {item : KP α} {sep : KP σ} {term : KP τ}
    {f : Unit → α → Option Unit} {g : β → α → Option β} {initg : β}
    (hf : ∀ a x, f a x = some ()) :
    ∀ (input tail : List Char),
      sepTerm item sep term () f input = .ok tail () →
      (∃ out, sepTerm item sep term initg g input = .ok tail out) ∨
      (∃ e, sepTerm item sep term initg g input = .fail e ∧ e.bounds = true) := by
  intro input tail h
  simp only [sepTerm] at h ⊢
  cases hi : item input with
  | err e =>
    simp only [hi] at h
    exact absurd h (by simp)
  | fail e =>
    simp only [hi] at h
    exact absurd h (by simp)
  | ok t v =>
    simp only [hi] at h ⊢
    simp only [hf () v] at h
    cases hg : g initg v with
    | none =>
      simp only [hg]
      exact Or.inr ⟨⟨t, true⟩, rfl, rfl⟩
    | some acc =>
      simp only [hg]
      exact sepTermLoop_rel hf (t.length + 1) acc t tail h

/-- Relational lemma for the integer-part parser: recognize-only success
means the materializing run succeeds identically or overflows. -/
theorem parse_integer_part_rel {β : Type} (np : KP β) (radix : Nat) (sign : Sign)
    (input tail : List Char)
    (h : parse_integer_part np radix sign intU input = .ok tail ()) :
    (∃ v, parse_integer_part np radix sign intK input = .ok tail v) ∨
    (∃ e, parse_integer_part np radix sign intK input = .fail e ∧ e.bounds = true) := by
  unfold parse_integer_part at h ⊢
  refine sepTerm_rel ?_ input tail h
  intro a x
  obtain ⟨b, hb⟩ := foldDigits_intU_total radix x a
  exact hb

/-- Relational lemma for a cut integer part. -/
theorem pCut_int_rel {β : Type} (np : KP β) (radix : Nat) (sign : Sign)
    (t2 tail : List Char)
    (h : pCut (parse_integer_part np radix sign intU) t2 = .ok tail ()) :
    (∃ v, pCut (parse_integer_part np radix sign intK) t2 = .ok tail v) ∨
    (∃ e, pCut (parse_integer_part np radix sign intK) t2 = .fail e ∧ e.bounds = true) := by
  simp only [pCut] at h ⊢
  cases hin : parse_integer_part np radix sign intU t2 with
  | err e =>
    simp only [hin] at h
    exact absurd h (by simp)
  | fail e =>
    simp only [hin] at h
    exact absurd h (by simp)
  | ok tin vin =>
    simp only [hin] at h
    injection h with h1 h2
    subst h1
    rcases parse_integer_part_rel np radix sign t2 tin hin with ⟨v, hv⟩ | ⟨e, he, hbnd⟩
    · exact Or.inl ⟨v, by simp only [hv]⟩
    · refine Or.inr ⟨e, ?_, hbnd⟩
      simp only [he]

/-- A recognize-only radix-number error is reproduced identically by the
materializing run (errors can only arise before the radix prefix commits). -/
theorem parse_weird_err_rel (input : List Char) (e : PError)
    (h : parse_weird_number intU input = .err e) :
    parse_weird_number intK input = .err e := by
  simp only [parse_weird_number] at h ⊢
  cases hs : parse_optional_sign input with
  | err e1 =>
    simp only [hs] at h ⊢
    injection h with h1
    rw [h1]
  | fail e1 =>
    simp only [hs] at h
    exact absurd h (by simp)
  | ok t1 sign =>
    simp only [hs] at h ⊢
    cases hb : parse_base t1 with
    | err e1 =>
      simp only [hb] at h ⊢
      injection h with h1
      rw [h1]
    | fail e1 =>
      simp only [hb] at h
      exact absurd h (by simp)
    | ok t2 base =>
      simp only [hb] at h ⊢
      cases base <;> exact absurd h (pCut_ne_err _ _ _)

/-- Relational lemma for radix-prefixed numbers. -/
theorem parse_weird_ok_rel (input tail : List Char)
    (h : parse_weird_number intU input = .ok tail ()) :
    (∃ v, parse_weird_number intK input = .ok tail v) ∨
    (∃ e, parse_weird_number intK input = .fail e ∧ e.bounds = true) := by
  simp only [parse_weird_number] at h ⊢
  cases hs : parse_optional_sign input with
  | err e1 =>
    simp only [hs] at h
    exact absurd h (by simp)
  | fail e1 =>
    simp only [hs] at h
    exact absurd h (by simp)
  | ok t1 sign =>
    simp only [hs] at h ⊢
    cases hb : parse_base t1 with
    | err e1 =>
      simp only [hb] at h
      exact absurd h (by simp)
    | fail e1 =>
      simp only [hb] at h
      exact absurd h (by simp)
    | ok t2 base =>
      simp only [hb] at h ⊢
      cases base with
      | Binary => exact pCut_int_rel _ 2 sign t2 tail h
      | Octal => exact pCut_int_rel _ 8 sign t2 tail h
      | Hex => exact pCut_int_rel _ 16 sign t2 tail h

/-- Relational lemma for map_res_cut with a total recognize mapping. -/
theorem pMapResCut_rel {α ν : Type} (p : KP α) (fk : α → Option ν)
    (input tail : List Char)
    (h : pMapResCut p (fun _ => some ()) true input = .ok tail ()) :
    (∃ v, pMapResCut p fk true input = .ok tail v) ∨
    (∃ e, pMapResCut p fk true input = .fail e ∧ e.bounds = true) := by
  simp only [pMapResCut] at h ⊢
  cases hr : p input with
  | err e =>
    simp only [hr] at h
    exact absurd h (by simp)
  | fail e =>
    simp only [hr] at h
    exact absurd h (by simp)
  | ok t v =>
    simp only [hr] at h
    injection h with h1 h2
    subst h1
    cases hk : fk v with
    | some w => exact Or.inl ⟨w, by simp [hk]⟩
    | none => exact Or.inr ⟨⟨input, true⟩, by simp [hk], rfl⟩

/-- Relational lemma for decimal numbers: the grammar is shared, only the
final builder step differs. -/
theorem parse_decimal_rel (input tail : List Char)
    (h : parse_decimal_number numU input = .ok tail ()) :
    (∃ v, parse_decimal_number numK input = .ok tail v) ∨
    (∃ e, parse_decimal_number numK input = .fail e ∧ e.bounds = true) := by
  unfold parse_decimal_number at h ⊢
  exact pMapResCut_rel _ numK.fromStr input tail h

/-- Relational lemma for parse_number: whenever recognize-only parsing
succeeds, materializing parsing either succeeds with the same tail or fails
with a BoundsError; grammar acceptance never depends on the magnitude. -/
theorem parse_number_rel (input tail : List Char)
    (h : parse_number numU input = .ok tail ()) :
    (∃ v, parse_number numK input = .ok tail v) ∨
    (∃ e, parse_number numK input = .fail e ∧ e.bounds = true) := by
  unfold parse_number at h ⊢
  simp only [pAlt, pMap, numU, numK] at h ⊢
  cases hw : parse_weird_number intU input with
  | ok t v =>
    simp only [hw] at h
    injection h with h1 h2
    subst h1
    rcases parse_weird_ok_rel input t hw with ⟨v2, hv⟩ | ⟨e, he, hbnd⟩
    · cases v2 with
      | Signed x => exact Or.inl ⟨KdlNumber.Signed x, by simp only [hv]⟩
      | Unsigned x => exact Or.inl ⟨KdlNumber.Unsigned x, by simp only [hv]⟩
    · refine Or.inr ⟨e, ?_, hbnd⟩
      simp only [he]
  | fail e1 =>
    simp only [hw] at h
    exact absurd h (by simp)
  | err e1 =>
    simp only [hw] at h
    have hk := parse_weird_err_rel input e1 hw
    rcases parse_decimal_rel input tail h with ⟨v, hv⟩ | ⟨e, he, hbnd⟩
    · refine Or.inl ⟨v, ?_⟩
      simp only [hk]
      exact hv
    · refine Or.inr ⟨e, ?_, hbnd⟩
      simp only [hk]
      exact he

/-- Claim C10: in recognize-only mode (the unit builders, used by every
drain), number parsing never returns a BoundsError; whenever recognize-only
parsing accepts a token, the materializing parse of the same input either
yields a number with the same tail or fails with a BoundsError (so grammar
acceptance never depends on 64-bit magnitude); and on the concrete
20-digit overflowing token, recognition and document draining succeed while
materializing fails with a BoundsError. -/
theorem c10_recognize_mode_no_bounds :
    (∀ input, (parse_number numU input).noBounds = true) ∧
    (∀ input tail, parse_number numU input = .ok tail () →
      (∃ v, parse_number numK input = .ok tail v) ∨
      (∃ e, parse_number numK input = .fail e ∧ e.bounds = true)) ∧
    parse_number numU ( "99999999999999999999 ".toList) = .ok ( " ".toList) () ∧
    parse_number numK ( "99999999999999999999 ".toList) =
      .fail ⟨ "99999999999999999999 ".toList, true⟩ ∧
    drainDocument ( "n 99999999999999999999\n".toList) = .ok [] .NotEmpty := by
  refine ⟨nb_parse_number_numU, parse_number_rel, by decide, by decide, by decide⟩

/-- Witness for C10's general parts at concrete tokens. -/
theorem c10_recognize_mode_no_bounds_witness :
    (parse_number numU ( "0xFFFFFFFFFFFFFFFFF".toList)).noBounds = true ∧
    ((∃ v, parse_number numK ( "99999999999999999999 ".toList) = .ok ( " ".toList) v) ∨
     (∃ e, parse_number numK ( "99999999999999999999 ".toList) = .fail e ∧
        e.bounds = true)) :=
  ⟨c10_recognize_mode_no_bounds.1 ( "0xFFFFFFFFFFFFFFFFF".toList),
   c10_recognize_mode_no_bounds.2.1 ( "99999999999999999999 ".toList) ( " ".toList)
     (by decide)⟩
